import Mathlib

/-!
Verification of the record-linkage and merge pipeline of the
Rotten-Tomatoes regression-discontinuity repository.

The development shallowly embeds the pure core of the pipeline:
the title normaliser and money parser of `src/utils.py`, the fuzzy
budget matcher, the exact-key merge stages and the derived-variable
constructor of `src/05_merge_datasets.py`, together with the
configuration constants of `config.py`.

Modelling conventions:
* Python strings are `String` / `List Char`; the character classes of
  the regexes (`\w`, `\s`) and `str.lower` are modelled on their ASCII
  fragment (non-ASCII letters are treated as non-word characters).
* Nullable cells are `Option` values; a pandas `DataFrame` is a list of
  association-list rows together with a column list; `NaN` is the
  dedicated cell value `Val.vnone`.
* `rapidfuzz` similarity scorers and `numpy` logarithms are external
  libraries and enter as function parameters; scores are rationals.
* Fallible pandas operations (`KeyError` on a missing column) are
  `Except` values carrying the missing column names.
-/

namespace RTMerge

/-! ## Python character classes (ASCII fragment) -/

/-- ASCII whitespace recognised by Python `str.strip` and the regex
class `\s` (space, tab, newline, carriage return, vertical tab,
form feed). -/
def isPySpace (c : Char) : Bool :=
  c == ' ' || c == '\t' || c == '\n' || c == '\r' || c == '\x0b' || c == '\x0c'

/-- ASCII fragment of the regex word class `\w`: alphanumerics and the
underscore. -/
def isWordChar (c : Char) : Bool :=
  c.isAlphanum || c == '_'

/-- `str.lower` on one character (ASCII fragment, as in `Char.toLower`). -/
def pyLower (s : List Char) : List Char :=
  s.map Char.toLower

/-- `str.strip`: drop leading and trailing whitespace. -/
def pyStrip (s : List Char) : List Char :=
  ((s.dropWhile isPySpace).reverse.dropWhile isPySpace).reverse

/-! ## `normalize_title` (src/utils.py lines 115-144) -/

/-- Helper for the non-greedy regex `\(.*?\)`: scan for the first `)`;
`.` does not match a newline, so a newline before any `)` makes the
match fail (`none`).  On success returns the characters after the `)`. -/
def findClose : List Char → Option (List Char)
  | [] => none
  | c :: cs => if c == ')' then some cs else if c == '\n' then none else findClose cs

/-- Fuel-indexed scan of `re.sub(r"\(.*?\)", "", s)`: at each `(` try to
match up to the first `)` (failing across newlines); on a match resume
after it, otherwise emit the `(` and continue with the next character. -/
def removeParensFuel : Nat → List Char → List Char
  | 0, s => s
  | _ + 1, [] => []
  | fuel + 1, c :: cs =>
    if c == '(' then
      match findClose cs with
      | some rest => removeParensFuel fuel rest
      | none => c :: removeParensFuel fuel cs
    else c :: removeParensFuel fuel cs

/-- `re.sub(r"\(.*?\)", "", s)`: remove parenthetical content. -/
def removeParens (s : List Char) : List Char :=
  removeParensFuel s.length s

/-- `s.replace("&", "and")`. -/
def replaceAmp (s : List Char) : List Char :=
  s.flatMap fun c => if c == '&' then ['a', 'n', 'd'] else [c]

/-- `re.sub(r"[^\w\s]", " ", s)`: every character that is neither a word
character nor whitespace becomes a space. -/
def punctMap (s : List Char) : List Char :=
  s.map fun c => if isWordChar c || isPySpace c then c else ' '

/-- `re.sub(r"\s+", " ", s)`: collapse each maximal whitespace run to a
single space. -/
def collapseWs : List Char → List Char
  | [] => []
  | [c] => if isPySpace c then [' '] else [c]
  | c1 :: c2 :: cs =>
    if isPySpace c1 && isPySpace c2 then collapseWs (c2 :: cs)
    else (if isPySpace c1 then ' ' else c1) :: collapseWs (c2 :: cs)

/-- One iteration of the article loop: `if s.startswith(article):
s = s[len(article):]`. -/
def stripArticle (art s : List Char) : List Char :=
  if art.isPrefixOf s then s.drop art.length else s

/-- The article loop `for article in ["the ", "a ", "an "]` — note that
the loop has no `break`, so each of the three prefixes is tried in turn
on the result of the previous step. -/
def stripArticles (s : List Char) : List Char :=
  stripArticle "an ".data (stripArticle "a ".data (stripArticle "the ".data s))

/-- `normalize_title` (src/utils.py): lowercase and strip, remove
parenthetical content, replace `&` by `and`, turn punctuation into
spaces, collapse whitespace, strip one leading occurrence of each
article.  The Python guard `if not title` is the empty-string test. -/
def normalize_title (title : String) : String :=
  if title = "" then ""
  else
    let s := pyStrip (pyLower title.data)
    let s := removeParens s
    let s := replaceAmp s
    let s := punctMap s
    let s := pyStrip (collapseWs s)
    String.mk (stripArticles s)

/-! ## `parse_money` (src/utils.py lines 147-172)

Python `float` text is modelled as an exact decimal `(numerator,
scale)` with value `numerator / 10 ^ scale`; binary floating-point
rounding is elided (on the inputs appearing in the claims the Python
float computation lands on the same integer). -/

/-- Accumulate a digit string into a natural number. -/
def digitsToNat (l : List Char) : Nat :=
  l.foldl (fun n c => n * 10 + (c.toNat - 48)) 0

/-- The decimal fragment of Python `float(text)`: an optional sign, an
integer part and an optional fractional part, at least one digit in
total.  Returns `(numerator, scale)` with value `numerator / 10 ^
scale`; `none` models `ValueError`.  (Exponent notation, `inf`, `nan`
and underscores are accepted by Python but never occur in money text.) -/
def parsePyFloat (s : List Char) : Option (Int × Nat) :=
  let signed : Int × List Char :=
    match s with
    | '-' :: r => (-1, r)
    | '+' :: r => (1, r)
    | r => (1, r)
  let sign := signed.1
  let rest := signed.2
  let ip := rest.takeWhile (fun c => c != '.')
  match rest.dropWhile (fun c => c != '.') with
  | [] =>
    if ip.isEmpty || !(ip.all Char.isDigit) then none
    else some (sign * digitsToNat ip, 0)
  | _ :: fp =>
    if (ip.isEmpty && fp.isEmpty) || !(ip.all Char.isDigit) || !(fp.all Char.isDigit) then none
    else some (sign * (digitsToNat ip * 10 ^ fp.length + digitsToNat fp), fp.length)

/-- Python `int(·)` on a quotient `num / 10 ^ scale`: truncation toward
zero. -/
def truncTowardZero (num : Int) (den : Nat) : Int :=
  if 0 ≤ num then ((num.toNat / den : Nat) : Int)
  else -(((-num).toNat / den : Nat) : Int)

/-- `int(float(body) * mult)` where `body` denotes `num / 10 ^ scale`. -/
def scaleAndTrunc (mult : Nat) (p : Int × Nat) : Int :=
  truncTowardZero (p.1 * mult) (10 ^ p.2)

/-- The placeholder strings treated as null by `parse_money`. -/
def MONEY_PLACEHOLDERS : List String :=
  ["-", "–", "—", "n/a", "N/A", ""]

/-- `parse_money` (src/utils.py): strip, map placeholder text to null,
drop `$` and thousands separators, scale a `B`/`M`/`K` suffix, truncate
to an integer; any parse failure yields null.  A `none` argument models
a non-string input (the `isinstance` guard). -/
def parse_money (text : Option String) : Option Int :=
  match text with
  | none => none
  | some t0 =>
    if t0 = "" then none
    else
      let t1 := pyStrip t0.data
      if MONEY_PLACEHOLDERS.contains (String.mk t1) then none
      else
        let t := pyStrip ((t1.filter (fun c => c != '$')).filter (fun c => c != ','))
        match t.getLast? with
        | none => none
        | some last =>
          if last.toUpper == 'B' then (parsePyFloat t.dropLast).map (scaleAndTrunc 1000000000)
          else if last.toUpper == 'M' then (parsePyFloat t.dropLast).map (scaleAndTrunc 1000000)
          else if last.toUpper == 'K' then (parsePyFloat t.dropLast).map (scaleAndTrunc 1000)
          else (parsePyFloat t).map (scaleAndTrunc 1)

/-! ## `parse_date` (src/utils.py lines 175-203)

`datetime.strptime` is C-library code external to the repository; it
enters as a parameter mapping `(text, format)` to an optional date. -/

/-- A Python `datetime.date`. -/
structure PyDate where
  year : Int
  month : Nat
  day : Nat
deriving DecidableEq, Repr

/-- Lexicographic date comparison (Python date ordering). -/
def PyDate.le (a b : PyDate) : Bool :=
  a.year < b.year ||
    (a.year == b.year && (a.month < b.month ||
      (a.month == b.month && a.day ≤ b.day)))

/-- The format list tried by `parse_date`, in order. -/
def DATE_FORMATS : List String :=
  ["%b %d, %Y", "%B %d, %Y", "%Y-%m-%d", "%m/%d/%Y"]

/-- `parse_date` (src/utils.py): None or empty input is null; otherwise
strip and return the first format that `strptime` accepts, else null. -/
def parse_date (strptime : String → String → Option PyDate) (text : Option String) :
    Option PyDate :=
  match text with
  | none => none
  | some t =>
    if t = "" then none
    else
      let t := String.mk (pyStrip t.data)
      DATE_FORMATS.foldl (fun acc fmt => acc.orElse (fun _ => strptime t fmt)) none

/-! ## Canonical form of normalised titles

After `normalize_title`, every character is a lowercase word character
or a single interior space.  These lemmas characterise that canonical
form and show each pipeline stage is the identity on it; they drive the
analysis of the idempotence claim. -/

/-- A character that can appear in `normalize_title` output: a word
character or a space, fixed by `toLower`. -/
def goodChar (c : Char) : Bool :=
  (isWordChar c || c == ' ') && (c.toLower == c)

/-- No two adjacent spaces. -/
def SpaceSep (a b : Char) : Prop := ¬(a = ' ' ∧ b = ' ')

/-- Canonical form: good characters, no double space, no leading or
trailing space. -/
structure Canon (s : List Char) : Prop where
  good : ∀ c ∈ s, goodChar c = true
  chain : List.Chain' SpaceSep s
  headOk : ∀ c ∈ s.head?, c ≠ ' '
  lastOk : ∀ c ∈ s.getLast?, c ≠ ' '

/-- All characters of the list are fixed by `toLower`. -/
def Lowered (s : List Char) : Prop := ∀ c ∈ s, c.toLower = c

/-- The normalisation pipeline up to (and excluding) article stripping. -/
def preNorm (s : String) : List Char :=
  pyStrip (collapseWs (punctMap (replaceAmp (removeParens (pyStrip (pyLower s.data))))))

/-! ## Configuration constants (config.py) -/

def RD_THRESHOLD : ℚ := 60
def FUZZY_MATCH_ACCEPT_THRESHOLD : ℚ := 85
def FUZZY_MATCH_REVIEW_THRESHOLD : ℚ := 70
def MIN_OPENING_THEATERS : ℚ := 600

/-! ## Cells, rows and frames

A pandas `DataFrame` is modelled as a column-name list plus one
association-list row per record; `NaN` / `None` cells are `Val.vnone`.
Raising column accesses (`df[...]`, `row[...]`) are guarded by
column-membership tests returning `Except` errors that carry the
missing names (the `KeyError` payload); the lenient `row.get(...)`
accessor is `getCol`, which defaults to `vnone`. -/

inductive Val where
  | vstr : String → Val
  | vint : Int → Val
  | vrat : ℚ → Val
  | vdate : PyDate → Val
  | vbool : Bool → Val
  | vnone : Val
deriving DecidableEq, Repr

abbrev Row := List (String × Val)

structure Frame where
  cols : List String
  rows : List Row
deriving DecidableEq, Repr

instance {ε α : Type} [DecidableEq ε] [DecidableEq α] : DecidableEq (Except ε α) := fun x y =>
  match x, y with
  | .ok a, .ok b =>
    if h : a = b then .isTrue (by rw [h]) else .isFalse (fun hh => h (Except.ok.inj hh))
  | .error a, .error b =>
    if h : a = b then .isTrue (by rw [h]) else .isFalse (fun hh => h (Except.error.inj hh))
  | .ok _, .error _ => .isFalse (fun hh => Except.noConfusion hh)
  | .error _, .ok _ => .isFalse (fun hh => Except.noConfusion hh)

/-- Cell lookup; an absent key reads as null (`row.get(k)` semantics;
raising accesses are guarded separately at frame level). -/
def getCol (r : Row) (k : String) : Val :=
  (r.lookup k).getD .vnone

def colNames (r : Row) : List String :=
  r.map Prod.fst

/-- Replace the cell under key `k`, keeping other cells. -/
def overwritePair (k : String) (v : Val) (p : String × Val) : String × Val :=
  if p.1 = k then (k, v) else p

/-- Column assignment `df[k] = v` at row level: overwrite in place if
the column exists, otherwise append it on the right (pandas appends new
columns at the end). -/
def setCol (r : Row) (k : String) (v : Val) : Row :=
  if k ∈ colNames r then r.map (overwritePair k v) else r ++ [(k, v)]

def setCols (r : Row) : List (String × Val) → Row
  | [] => r
  | (k, v) :: rest => setCols (setCol r k v) rest

def addColName (cs : List String) (c : String) : List String :=
  if c ∈ cs then cs else cs ++ [c]

/-- Read a cell as a Python string (`vstr` cells only; the pipeline
only applies it to string columns). -/
def asStr : Val → String
  | .vstr s => s
  | _ => ""

def optVal (f : α → Val) : Option α → Val
  | some a => f a
  | none => .vnone

/-! ## The fuzzy budget matcher (src/05_merge_datasets.py lines 114-225) -/

/-- `rapidfuzz.process.extractOne(query, choices, scorer=...,
score_cutoff=0)`: the first-seen highest-scoring choice together with
its score and index, or `None` when no score reaches the cutoff (with
cutoff 0 that happens only for an empty choice list, since real scorers
are nonnegative). -/
def bestOf (acc : Option (String × ℚ × Nat)) (x : String × ℚ × Nat) :
    Option (String × ℚ × Nat) :=
  match acc with
  | none => some x
  | some b => if b.2.1 < x.2.1 then some x else some b

def extractOne (scorer : String → String → ℚ) (query : String) (choices : List String) :
    Option (String × ℚ × Nat) :=
  let scored := choices.enum.map (fun p => (p.2, scorer query p.2, p.1))
  match scored.foldl bestOf none with
  | none => none
  | some b => if 0 ≤ b.2.1 then some b else none

/-- Year blocking (lines 154-159): with a known (truthy) release year,
keep candidates whose `release_year` lies within ±1; a null year keeps
the full pool.  `if bom_year and pd.notna(bom_year)` makes a zero year
falsy, skipping the blocking.  Null candidate years compare false. -/
def yearBlock (year : Option Int) (tn : List Row) : List Row :=
  match year with
  | none => tn
  | some y =>
    if y = 0 then tn
    else tn.filter (fun r =>
      match getCol r "release_year" with
      | .vint ry => decide (y - 1 ≤ ry) && decide (ry ≤ y + 1)
      | _ => false)

/-- The per-row result of the matching loop before the candidate row is
dereferenced: the matched candidate row (none on the short-circuit
paths), the score, and the three-way status. -/
structure BudgetMatch where
  tn_row : Option Row
  tn_match_score : ℚ
  tn_match_status : String
deriving DecidableEq, Repr

/-- Lines 194-199: classify a score against the two configured
thresholds. -/
def classifyScore (acceptT reviewT score : ℚ) : String :=
  if acceptT ≤ score then "matched"
  else if reviewT ≤ score then "review"
  else "unmatched"

/-- The record produced by every short-circuit branch of the loop:
no candidate, score 0, status `unmatched`. -/
def unmatchedResult : BudgetMatch :=
  { tn_row := none, tn_match_score := 0, tn_match_status := "unmatched" }

/-- The body of the matching loop (lines 139-208) for one target row:
empty normalised title, empty year-blocked candidate pool, or a `None`
from `extractOne` short-circuit to `unmatchedResult`; otherwise the
best candidate row with its score classified against the thresholds. -/
def matchOne (scorer : String → String → ℚ) (acceptT reviewT : ℚ)
    (title_norm : String) (year : Option Int) (tn : List Row) : BudgetMatch :=
  if title_norm = "" then unmatchedResult
  else
    let candidates := yearBlock year tn
    if candidates.isEmpty then unmatchedResult
    else
      match extractOne scorer title_norm
        (candidates.map (fun r => asStr (getCol r "title_normalized"))) with
      | none => unmatchedResult
      | some b =>
        { tn_row := candidates[b.2.2]?
          tn_match_score := b.2.1
          tn_match_status := classifyScore acceptT reviewT b.2.1 }

/-- The columns `fuzzy_match_budgets` assigns, in assignment order:
the two helper columns (lines 122, 125) and the five budget-match
columns (lines 213-215). -/
def FUZZY_ADDED_COLS : List String :=
  ["title_norm", "release_year", "tn_title_matched", "tn_match_score",
   "production_budget", "tn_domestic_gross", "tn_match_status"]

/-- Line 125: `d.year if d else None` on the parsed release date. -/
def bomReleaseYear (r : Row) : Option Int :=
  match getCol r "release_date_parsed" with
  | .vdate d => some d.year
  | _ => none

/-- One iteration of the matching loop on a BOM row, including the
attachment of the helper and match columns.  `tn_row["title"]` (line
203) raises when the budget table lacks a `title` column; the budget
and gross fields use the lenient `tn_row.get(...)` accessor. -/
def fuzzyRow (scorer : String → String → ℚ) (acceptT reviewT : ℚ) (tn : Frame) (r : Row) :
    Except (List String) Row :=
  let title_norm := normalize_title (asStr (getCol r "title"))
  let year := bomReleaseYear r
  let r2 := setCol (setCol r "title_norm" (.vstr title_norm)) "release_year" (optVal Val.vint year)
  let m := matchOne scorer acceptT reviewT title_norm year tn.rows
  match m.tn_row with
  | none =>
    .ok (setCols r2 [("tn_title_matched", .vnone), ("tn_match_score", .vrat m.tn_match_score),
      ("production_budget", .vnone), ("tn_domestic_gross", .vnone),
      ("tn_match_status", .vstr m.tn_match_status)])
  | some tnr =>
    if "title" ∈ tn.cols then
      .ok (setCols r2 [("tn_title_matched", getCol tnr "title"),
        ("tn_match_score", .vrat m.tn_match_score),
        ("production_budget", getCol tnr "production_budget"),
        ("tn_domestic_gross", getCol tnr "domestic_gross"),
        ("tn_match_status", .vstr m.tn_match_status)])
    else .error ["title"]

/-- Run a fallible row transformation over the rows in order, stopping
at the first error (the Python loop raises at the first bad row). -/
def rowsMapM (f : Row → Except (List String) Row) : List Row → Except (List String) (List Row)
  | [] => .ok []
  | r :: rs =>
    match f r with
    | .error e => .error e
    | .ok r2 =>
      match rowsMapM f rs with
      | .error e => .error e
      | .ok rs2 => .ok (r2 :: rs2)

/-- Budget-table preparation (lines 130-134): derive
`title_normalized` from `title` when absent (raising on a missing
`title`), and require `release_year` — the guarded branch reads
`tn_df["release_year"]` precisely when the column is missing, raising
`KeyError("release_year")`. -/
def prepTn (tn : Frame) : Except (List String) Frame :=
  let step1 : Except (List String) Frame :=
    if "title_normalized" ∈ tn.cols then .ok tn
    else if "title" ∈ tn.cols then
      .ok { cols := addColName tn.cols "title_normalized"
            rows := tn.rows.map (fun r =>
              setCol r "title_normalized" (.vstr (normalize_title (asStr (getCol r "title"))))) }
    else .error ["title"]
  step1.bind fun tn2 =>
    if "release_year" ∈ tn2.cols then .ok tn2 else .error ["release_year"]

/-- `fuzzy_match_budgets` (lines 114-225): normalise BOM titles and
years (raising accesses on `title` and `release_date_parsed`), prepare
the budget table, then run the matching loop over every BOM row in
order and attach the helper and match columns. -/
def fuzzy_match_budgets (scorer : String → String → ℚ) (acceptT reviewT : ℚ)
    (bom tn : Frame) : Except (List String) Frame :=
  if "title" ∈ bom.cols then
    if "release_date_parsed" ∈ bom.cols then
      (prepTn tn).bind fun tn2 =>
        match rowsMapM (fuzzyRow scorer acceptT reviewT tn2) bom.rows with
        | .error e => .error e
        | .ok rows => .ok { cols := FUZZY_ADDED_COLS.foldl addColName bom.cols, rows := rows }
    else .error ["release_date_parsed"]
  else .error ["title"]

/-! ## Exact-key merges (src/05_merge_datasets.py lines 42-111) -/

/-- pandas join-key equality: `pd.merge` factorizes key columns with
hash tables whose equality deliberately makes `NaN` equal to `NaN`
(and `None` to `None`), so null keys group together and match each
other — and match nothing else. -/
def valKeyEq (a b : Val) : Bool :=
  match a, b with
  | .vnone, .vnone => true
  | .vnone, _ => false
  | _, .vnone => false
  | a, b => a == b

/-- The non-key columns shared by both sides, which `pd.merge`
disambiguates with suffixes. -/
def joinOverlap (key : String) (L R : Frame) : List String :=
  L.cols.filter (fun c => R.cols.contains c && c != key)

/-- Apply a merge suffix to the overlapping column names. -/
def renCol (overlap : List String) (sfx : String) (c : String) : String :=
  if overlap.contains c then c ++ sfx else c

def renRow (overlap : List String) (sfx : String) (r : Row) : Row :=
  r.map (fun p => (renCol overlap sfx p.1, p.2))

/-- The right-side columns carried into the merge output (all but the
key). -/
def joinRightCols (key : String) (R : Frame) : List String :=
  R.cols.filter (fun c => c != key)

/-- The right-side rows matching a left row under the join key. -/
def joinMatches (key : String) (R : Frame) (lr : Row) : List Row :=
  R.rows.filter (fun rr => valKeyEq (getCol lr key) (getCol rr key))

/-- The merge output rows generated by one left row: one per matching
right row, or a single all-null-right row when nothing matches. -/
def joinOne (key sl sr : String) (L R : Frame) (lr : Row) : List Row :=
  let overlap := joinOverlap key L R
  let lrR := renRow overlap sl lr
  match joinMatches key R lr with
  | [] => [lrR ++ (joinRightCols key R).map (fun c => (renCol overlap sr c, Val.vnone))]
  | ms => ms.map (fun rr =>
      lrR ++ (rr.filter (fun p => p.1 != key)).map (fun p => (renCol overlap sr p.1, p.2)))

/-- The single output row a left row produces when it has at most one
key match. -/
def joinOneRow (key sl sr : String) (L R : Frame) (lr : Row) : Row :=
  let overlap := joinOverlap key L R
  match (joinMatches key R lr).head? with
  | none => renRow overlap sl lr ++ (joinRightCols key R).map (fun c => (renCol overlap sr c, Val.vnone))
  | some rr => renRow overlap sl lr ++
      (rr.filter (fun p => p.1 != key)).map (fun p => (renCol overlap sr p.1, p.2))

/-- The first right row matching a left row under the key. -/
def detailMatch (key : String) (det : Frame) (lr : Row) : Option Row :=
  (det.rows.filter (fun rr => valKeyEq (getCol lr key) (getCol rr key))).head?

/-- The value a column of the first matching right row contributes
(null when no right row matches). -/
def detailVal (det : Frame) (lr : Row) (c : String) : Val :=
  match detailMatch "bom_release_id" det lr with
  | some rr => getCol rr c
  | none => Val.vnone

/-- `pd.merge(L, R, on=key, how="left", suffixes=(sl, sr))`: every left
row is paired with each matching right row (one output row per match),
or with an all-null right side when nothing matches; overlapping
non-key column names are suffixed. -/
def pdLeftJoin (key sl sr : String) (L R : Frame) : Frame :=
  let overlap := joinOverlap key L R
  { cols := L.cols.map (renCol overlap sl) ++ (joinRightCols key R).map (renCol overlap sr)
    rows := L.rows.flatMap (joinOne key sl sr L R) }

/-- Reindex one row to a column list (column selection at row level). -/
def reindexRow (cs : List String) (r : Row) : Row :=
  cs.map (fun c => (c, getCol r c))

/-- `df[[c for c in cols if c in df.columns]]`: lenient column
selection, silently skipping absent columns. -/
def selectLenient (cs : List String) (f : Frame) : Frame :=
  let kept := cs.filter (fun c => f.cols.contains c)
  { cols := kept, rows := f.rows.map (reindexRow kept) }

/-- `df[[...]]` with a mandatory column list: `KeyError` listing every
missing column, else reindex to exactly those columns. -/
def requireCols (cs : List String) (f : Frame) : Except (List String) Frame :=
  let missing := cs.filter (fun c => !(f.cols.contains c))
  if missing.isEmpty then
    .ok { cols := cs, rows := f.rows.map (reindexRow cs) }
  else .error missing

/-- `a.fillna(b)` on one cell. -/
def fillVal (a b : Val) : Val :=
  match a with
  | .vnone => b
  | v => v

/-- `df[dst] = df[dst].fillna(df[src])`. -/
def fillnaCol (dst src : String) (f : Frame) : Frame :=
  { cols := f.cols
    rows := f.rows.map (fun r => setCol r dst (fillVal (getCol r dst) (getCol r src))) }

/-- The review-score columns selected by `merge_rt` (lines 94-98). -/
def RT_COLS : List String :=
  ["bom_release_id", "tomatometer", "audience_score", "critic_count", "audience_count",
   "rt_genres", "rt_rating", "match_method", "rt_url", "rt_title"]

/-- `merge_rt` (lines 92-111): lenient selection of the review
columns, a left join on the release identifier (raising when either
side lacks the key), MPAA backfill from the review source when both
rating columns exist, and the summary-count accesses to `tomatometer`
and `audience_score` (lines 107-108), which raise when those columns
are absent. -/
def merge_rt (bom rt : Frame) : Except (List String) Frame :=
  let rt_subset := selectLenient RT_COLS rt
  if "bom_release_id" ∈ bom.cols then
    if "bom_release_id" ∈ rt_subset.cols then
      let merged := pdLeftJoin "bom_release_id" "_x" "_y" bom rt_subset
      let backfilled : Except (List String) Frame :=
        if "rt_rating" ∈ merged.cols then
          if "mpaa_rating" ∈ merged.cols then .ok (fillnaCol "mpaa_rating" "rt_rating" merged)
          else .error ["mpaa_rating"]
        else .ok merged
      backfilled.bind fun m2 =>
        if "tomatometer" ∈ m2.cols then
          if "audience_score" ∈ m2.cols then .ok m2 else .error ["audience_score"]
        else .error ["tomatometer"]
    else .error ["bom_release_id"]
  else .error ["bom_release_id"]

/-- The listing-index columns selected by `merge_bom` (lines 46-47). -/
def BOM_INDEX_COLS : List String :=
  ["bom_release_id", "title", "total_gross", "max_theaters", "release_date_raw",
   "bom_year", "distributor", "release_url"]

/-- The detail-page columns selected by `merge_bom` (lines 48-50). -/
def BOM_DETAIL_COLS : List String :=
  ["bom_release_id", "opening_wknd_gross", "opening_wknd_theaters", "widest_release",
   "domestic_gross", "mpaa_rating", "genres", "release_date", "distributor"]

/-- The columns kept by `merge_bom` (lines 81-85). -/
def BOM_KEEP_COLS : List String :=
  ["bom_release_id", "title", "release_date_parsed", "bom_year", "opening_wknd_gross",
   "opening_wknd_theaters", "domestic_gross", "widest_release", "max_theaters",
   "distributor", "mpaa_rating", "genres"]

/-- The fallback branch of `resolve_release_date` (lines 68-75): strip
the raw listing date, append the listing year and parse. -/
def resolveFallbackDate (strptime : String → String → Option PyDate) (r : Row) :
    Option PyDate :=
  match getCol r "release_date_raw", getCol r "bom_year" with
  | .vstr raw, .vint y =>
    parse_date strptime (some (String.mk (pyStrip raw.data) ++ ", " ++ toString y))
  | _, _ => none

/-- `resolve_release_date` (lines 62-75): prefer the parsed detail-page
date, else the listing fallback, else null. -/
def resolve_release_date (strptime : String → String → Option PyDate) (r : Row) :
    Option PyDate :=
  match getCol r "release_date" with
  | .vstr t =>
    match parse_date strptime (some t) with
    | some d => some d
    | none => resolveFallbackDate strptime r
  | _ => resolveFallbackDate strptime r

/-- Line 77: attach `release_date_parsed`. -/
def addParsedDate (strptime : String → String → Option PyDate) (f : Frame) : Frame :=
  { cols := addColName f.cols "release_date_parsed"
    rows := f.rows.map (fun r =>
      setCol r "release_date_parsed" (optVal Val.vdate (resolve_release_date strptime r))) }

/-- `merge_bom` (lines 42-89): mandatory column selections, a left
join on the release identifier with `(_index, _detail)` suffixes,
detail-over-index fallback for domestic gross (via `total_gross`) and
distributor, release-date resolution, and the final keep-column
selection. -/
def merge_bom (strptime : String → String → Option PyDate) (idx det : Frame) :
    Except (List String) Frame :=
  (requireCols BOM_INDEX_COLS idx).bind fun L =>
  (requireCols BOM_DETAIL_COLS det).bind fun R =>
  let bom := pdLeftJoin "bom_release_id" "_index" "_detail" L R
  let bom := fillnaCol "domestic_gross" "total_gross" bom
  let bom := { cols := addColName bom.cols "distributor"
               rows := bom.rows.map (fun r => setCol r "distributor"
                 (fillVal (getCol r "distributor_detail") (getCol r "distributor_index"))) }
  let bom := addParsedDate strptime bom
  .ok (selectLenient BOM_KEEP_COLS bom)

/-! ## Derived RDD variables (src/05_merge_datasets.py lines 248-283) -/

/-- pandas `series >= cutoff` on a float64 column: a `NaN` cell
compares `False` (it does not propagate). -/
def pandasGeNaN (cutoff : ℚ) (x : Option ℚ) : Bool :=
  match x with
  | some v => decide (cutoff ≤ v)
  | none => false

/-- Lines 255-256: `(df[score] >= config.RD_THRESHOLD).astype("Int64")`
— the float64 comparison first materialises booleans (`NaN` becoming
`False`), then the nullable-integer cast maps them to 0/1. -/
def is_fresh (cutoff : ℚ) (x : Option ℚ) : Option Int :=
  some (if pandasGeNaN cutoff x then 1 else 0)

/-- `np.log(series.clip(lower=1))`: floor at 1 then log; a null input
propagates (`clip` and `log` both map `NaN` to `NaN`).  `np.log` is
external and enters as the parameter `ln`. -/
def log_clip1 (ln : ℚ → ℚ) (x : Option ℚ) : Option ℚ :=
  x.map (fun v => ln (max v 1))

/-- Lines 264-268: `np.where(budget.notna() & (budget > 0),
np.log(budget.clip(lower=1)), np.nan)` — null or non-positive budgets
yield null, positive budgets the floored log. -/
def log_budget_np (ln : ℚ → ℚ) (b : Option ℚ) : Option ℚ :=
  match b with
  | some v => if 0 < v then some (ln (max v 1)) else none
  | none => none

/-- The columns of the filtered table consumed by
`construct_rdd_variables`. -/
structure FilteredRow where
  tomatometer : Option ℚ
  audience_score : Option ℚ
  opening_wknd_gross : Option ℚ
  domestic_gross : Option ℚ
  opening_wknd_theaters : Option ℚ
  production_budget : Option ℚ
  release_date_parsed : Option PyDate
deriving DecidableEq, Repr

/-- The derived variables added by `construct_rdd_variables`. -/
structure RddVars where
  tomatometer_centered : Option ℚ
  audience_score_centered : Option ℚ
  is_fresh_critic : Option Int
  is_fresh_audience : Option Int
  log_opening_gross : Option ℚ
  log_total_gross : Option ℚ
  log_theaters : Option ℚ
  log_budget : Option ℚ
  release_year : Option Int
  release_month : Option Nat
  in_theaters : Bool
deriving DecidableEq, Repr

/-- `construct_rdd_variables` (lines 248-283) on one row.  `ln` is the
external `np.log`; `inCutoff` is `END_DATE - IN_THEATERS_WINDOW_DAYS`,
computed by the external `datetime` library. -/
def construct_rdd_row (ln : ℚ → ℚ) (rdThreshold : ℚ) (inCutoff : PyDate)
    (r : FilteredRow) : RddVars :=
  { tomatometer_centered := r.tomatometer.map (fun v => v - rdThreshold)
    audience_score_centered := r.audience_score.map (fun v => v - rdThreshold)
    is_fresh_critic := is_fresh rdThreshold r.tomatometer
    is_fresh_audience := is_fresh rdThreshold r.audience_score
    log_opening_gross := log_clip1 ln r.opening_wknd_gross
    log_total_gross := log_clip1 ln r.domestic_gross
    log_theaters := log_clip1 ln r.opening_wknd_theaters
    log_budget := log_budget_np ln r.production_budget
    release_year := r.release_date_parsed.map (fun d => d.year)
    release_month := r.release_date_parsed.map (fun d => d.month)
    in_theaters :=
      match r.release_date_parsed with
      | some d => PyDate.le inCutoff d
      | none => false }

/-! ## Concrete fixtures for evaluating the pipeline -/

/-- A one-row BOM table carrying the columns the fuzzy stage reads. -/
def exBomSmall : Frame :=
  { cols := ["bom_release_id", "title", "release_date_parsed"]
    rows := [[("bom_release_id", .vint 1), ("title", .vstr "Batman"),
              ("release_date_parsed", .vnone)]] }

/-- An empty budget table with the expected columns. -/
def exTnEmpty : Frame :=
  { cols := ["title", "title_normalized", "release_year"], rows := [] }

/-- A budget table whose `production_budget` column is absent. -/
def exTnNoBudget : Frame :=
  { cols := ["title", "title_normalized", "release_year"]
    rows := [[("title", .vstr "Batman"), ("title_normalized", .vstr "batman"),
              ("release_year", .vint 2022)]] }

/-- A one-row left table for the review merge. -/
def exBomKey : Frame :=
  { cols := ["bom_release_id", "mpaa_rating"]
    rows := [[("bom_release_id", .vint 1), ("mpaa_rating", .vnone)]] }

/-- A review table with two rows sharing the same release identifier. -/
def exRtDup : Frame :=
  { cols := ["bom_release_id", "tomatometer", "audience_score"]
    rows := [[("bom_release_id", .vint 1), ("tomatometer", .vint 80),
              ("audience_score", .vint 70)],
             [("bom_release_id", .vint 1), ("tomatometer", .vint 90),
              ("audience_score", .vint 60)]] }

/-- A review table with a unique key match. -/
def exRtOne : Frame :=
  { cols := ["bom_release_id", "tomatometer", "audience_score"]
    rows := [[("bom_release_id", .vint 1), ("tomatometer", .vint 80),
              ("audience_score", .vint 70)]] }

/-- A listing-index table with all required columns. -/
def exIdx : Frame :=
  { cols := BOM_INDEX_COLS
    rows := [[("bom_release_id", .vint 1), ("title", .vstr "Batman"),
              ("total_gross", .vint 100), ("max_theaters", .vint 3000),
              ("release_date_raw", .vstr "Mar 4"), ("bom_year", .vint 2022),
              ("distributor", .vstr "WB"), ("release_url", .vstr "u")]] }

/-- The row of `exIdx`. -/
def exIdxRow : Row :=
  [("bom_release_id", .vint 1), ("title", .vstr "Batman"),
   ("total_gross", .vint 100), ("max_theaters", .vint 3000),
   ("release_date_raw", .vstr "Mar 4"), ("bom_year", .vint 2022),
   ("distributor", .vstr "WB"), ("release_url", .vstr "u")]

/-- A detail table with all required columns; domestic gross and
distributor are null, exercising the index fallback. -/
def exDet : Frame :=
  { cols := BOM_DETAIL_COLS
    rows := [[("bom_release_id", .vint 1), ("opening_wknd_gross", .vint 50),
              ("opening_wknd_theaters", .vint 4000), ("widest_release", .vint 4300),
              ("domestic_gross", .vnone), ("mpaa_rating", .vstr "PG-13"),
              ("genres", .vstr "Action"), ("release_date", .vstr "Mar 4, 2022"),
              ("distributor", .vnone)]] }

/-- A listing-index table missing every required column but the key. -/
def exIdxMissing : Frame :=
  { cols := ["bom_release_id"], rows := [] }

/-- A `strptime` stub that never parses (external dependency stub for
concrete evaluation). -/
def exStrptime : String → String → Option PyDate := fun _ _ => none

/-- The merged table produced by `merge_bom` on the fixtures. -/
def exMergedBom : Frame :=
  match merge_bom exStrptime exIdx exDet with
  | .ok f => f
  | .error _ => { cols := [], rows := [] }

/-- The merged table produced by `merge_rt` on the fixtures. -/
def exMergedRt : Frame :=
  match merge_rt exBomKey exRtOne with
  | .ok f => f
  | .error _ => { cols := [], rows := [] }

/-- The output of the budget-match stage on the fixtures. -/
def exFuzzyOut : Frame :=
  match fuzzy_match_budgets (fun _ _ => (0 : ℚ)) FUZZY_MATCH_ACCEPT_THRESHOLD
      FUZZY_MATCH_REVIEW_THRESHOLD exBomSmall exTnEmpty with
  | .ok f => f
  | .error _ => { cols := [], rows := [] }

/-- A filtered row with a null production budget. -/
def exFilteredRow : FilteredRow :=
  { tomatometer := some 70, audience_score := some 55, opening_wknd_gross := some 100
    domestic_gross := some 200, opening_wknd_theaters := some 3000
    production_budget := none, release_date_parsed := none }

theorem toNat_ofNat_valid {n : Nat} (h : n.isValidChar) : (Char.ofNat n).toNat = n := by
  simp [Char.ofNat, dif_pos h, Char.ofNatAux, Char.toNat, UInt32.toNat, BitVec.toNat_ofNatLt]

theorem toLower_idem (c : Char) : c.toLower.toLower = c.toLower := by
  unfold Char.toLower
  by_cases h : c.toNat ≥ 65 ∧ c.toNat ≤ 90
  · rw [if_pos h]
    have hv : (c.toNat + 32).isValidChar := Or.inl (by omega)
    have ht : (Char.ofNat (c.toNat + 32)).toNat = c.toNat + 32 := toNat_ofNat_valid hv
    rw [if_neg]
    omega
  · rw [if_neg h, if_neg h]

theorem isPySpace_of_wordChar {c : Char} (h : isWordChar c = true) : isPySpace c = false := by
  cases hx : isPySpace c
  · rfl
  · exfalso
    simp only [isPySpace, Bool.or_eq_true, beq_iff_eq] at hx
    rcases hx with (((((h1 | h1) | h1) | h1) | h1) | h1) <;> subst h1 <;> exact absurd h (by decide)

theorem mem_of_mem_dropWhile {c : Char} {p : Char → Bool} :
    ∀ {s : List Char}, c ∈ s.dropWhile p → c ∈ s := by
  intro s
  induction s with
  | nil => simp
  | cons a t ih =>
    intro h
    by_cases hp : p a = true
    · simp [List.dropWhile, hp] at h
      exact List.mem_cons_of_mem a (ih h)
    · simp [List.dropWhile, hp] at h
      simpa using h

theorem head_dropWhile_false {p : Char → Bool} :
    ∀ (s : List Char), ∀ c ∈ (s.dropWhile p).head?, p c = false := by
  intro s
  induction s with
  | nil => simp [List.dropWhile]
  | cons a t ih =>
    intro c hc
    by_cases hp : p a = true
    · rw [List.dropWhile_cons_of_pos hp] at hc
      exact ih c hc
    · rw [List.dropWhile_cons_of_neg hp] at hc
      simp only [List.head?_cons, Option.mem_def, Option.some.injEq] at hc
      subst hc
      simpa using hp

theorem dropWhile_eq_self_of_head {p : Char → Bool} {s : List Char}
    (h : ∀ c ∈ s.head?, p c = false) : s.dropWhile p = s := by
  cases s with
  | nil => rfl
  | cons a t =>
    have : p a = false := h a (by simp)
    simp [List.dropWhile, this]

theorem dropWhile_suffix (p : Char → Bool) :
    ∀ (s : List Char), s.dropWhile p <:+ s := by
  intro s
  induction s with
  | nil => exact ⟨[], rfl⟩
  | cons a t ih =>
    by_cases hp : p a = true
    · rw [List.dropWhile_cons_of_pos hp]
      exact ih.trans ⟨[a], rfl⟩
    · rw [List.dropWhile_cons_of_neg hp]

theorem getLast_of_suffix {s l : List Char} (h : s <:+ l) (hne : s ≠ []) :
    s.getLast? = l.getLast? := by
  obtain ⟨t, rfl⟩ := h
  rw [List.getLast?_append]
  cases hx : s.getLast? with
  | none => exact absurd (List.getLast?_eq_none_iff.mp hx) hne
  | some c => simp

theorem chain_of_suffix {R : Char → Char → Prop} {s l : List Char}
    (hc : List.Chain' R l) (h : s <:+ l) : List.Chain' R s := by
  obtain ⟨t, rfl⟩ := h
  exact (List.chain'_append.mp hc).2.1

theorem mem_pyStrip {c : Char} {s : List Char} (h : c ∈ pyStrip s) : c ∈ s := by
  unfold pyStrip at h
  rw [List.mem_reverse] at h
  have h2 := mem_of_mem_dropWhile h
  rw [List.mem_reverse] at h2
  exact mem_of_mem_dropWhile h2

theorem pyStrip_head (s : List Char) : ∀ c ∈ (pyStrip s).head?, isPySpace c = false := by
  intro c hc
  unfold pyStrip at hc
  rw [List.head?_reverse] at hc
  have hne : (((s.dropWhile isPySpace).reverse.dropWhile isPySpace)) ≠ [] := by
    intro hnil
    rw [hnil] at hc
    simp at hc
  have := getLast_of_suffix (dropWhile_suffix isPySpace (s.dropWhile isPySpace).reverse) hne
  rw [this] at hc
  rw [List.getLast?_reverse] at hc
  exact head_dropWhile_false s c hc

theorem pyStrip_last (s : List Char) : ∀ c ∈ (pyStrip s).getLast?, isPySpace c = false := by
  intro c hc
  unfold pyStrip at hc
  rw [List.getLast?_reverse] at hc
  exact head_dropWhile_false _ c hc

theorem chain_reverse_of_symm {R : Char → Char → Prop} (hsym : ∀ a b, R a b → R b a)
    {l : List Char} (hl : List.Chain' R l) : List.Chain' R l.reverse := by
  rw [List.chain'_reverse]
  exact hl.imp (fun a b h => hsym a b h)

theorem pyStrip_chain {R : Char → Char → Prop} (hsym : ∀ a b, R a b → R b a)
    {s : List Char} (hc : List.Chain' R s) : List.Chain' R (pyStrip s) := by
  unfold pyStrip
  have h1 := chain_of_suffix hc (dropWhile_suffix isPySpace s)
  have h2 := chain_reverse_of_symm hsym h1
  have h3 := chain_of_suffix h2 (dropWhile_suffix isPySpace _)
  exact chain_reverse_of_symm hsym h3

theorem pyStrip_noop {s : List Char}
    (hh : ∀ c ∈ s.head?, isPySpace c = false)
    (hl : ∀ c ∈ s.getLast?, isPySpace c = false) : pyStrip s = s := by
  unfold pyStrip
  rw [dropWhile_eq_self_of_head hh]
  rw [dropWhile_eq_self_of_head (by simpa [List.head?_reverse] using hl)]
  exact List.reverse_reverse s

theorem collapseWs_cons2_ss {a b : Char} (u : List Char)
    (h1 : isPySpace a = true) (h2 : isPySpace b = true) :
    collapseWs (a :: b :: u) = collapseWs (b :: u) := by
  simp [collapseWs, h1, h2]

theorem collapseWs_cons2_sn {a b : Char} (u : List Char)
    (h1 : isPySpace a = true) (h2 : isPySpace b = false) :
    collapseWs (a :: b :: u) = ' ' :: collapseWs (b :: u) := by
  simp [collapseWs, h1, h2]

theorem collapseWs_cons2_n {a b : Char} (u : List Char) (h1 : isPySpace a = false) :
    collapseWs (a :: b :: u) = a :: collapseWs (b :: u) := by
  simp [collapseWs, h1]

theorem collapseWs_single {a : Char} :
    collapseWs [a] = if isPySpace a = true then [' '] else [a] := by
  cases h : isPySpace a <;> simp [collapseWs, h]

theorem collapseWs_mem :
    ∀ (s : List Char), ∀ c ∈ collapseWs s, c = ' ' ∨ (c ∈ s ∧ isPySpace c = false) := by
  intro s
  induction s with
  | nil => simp [collapseWs]
  | cons a t ih =>
    cases t with
    | nil =>
      intro c hc
      rw [collapseWs_single] at hc
      cases h : isPySpace a
      · rw [h] at hc
        simp at hc
        subst hc
        exact Or.inr ⟨by simp, h⟩
      · rw [h] at hc
        simp at hc
        exact Or.inl hc
    | cons b u =>
      intro c hc
      cases h1 : isPySpace a with
      | true =>
        cases h2 : isPySpace b with
        | true =>
          rw [collapseWs_cons2_ss u h1 h2] at hc
          rcases ih c hc with h | ⟨hm, hns⟩
          · exact Or.inl h
          · exact Or.inr ⟨List.mem_cons_of_mem a hm, hns⟩
        | false =>
          rw [collapseWs_cons2_sn u h1 h2] at hc
          rcases List.mem_cons.mp hc with rfl | hc
          · exact Or.inl rfl
          · rcases ih c hc with h | ⟨hm, hns⟩
            · exact Or.inl h
            · exact Or.inr ⟨List.mem_cons_of_mem a hm, hns⟩
      | false =>
        rw [collapseWs_cons2_n u h1] at hc
        rcases List.mem_cons.mp hc with rfl | hc
        · exact Or.inr ⟨by simp, h1⟩
        · rcases ih c hc with h | ⟨hm, hns⟩
          · exact Or.inl h
          · exact Or.inr ⟨List.mem_cons_of_mem a hm, hns⟩

theorem collapseWs_head :
    ∀ (t : List Char) (a : Char),
      (collapseWs (a :: t)).head? = some (if isPySpace a = true then ' ' else a) := by
  intro t
  induction t with
  | nil =>
    intro a
    rw [collapseWs_single]
    cases h : isPySpace a <;> simp [h]
  | cons b u ih =>
    intro a
    cases h1 : isPySpace a with
    | true =>
      cases h2 : isPySpace b with
      | true =>
        rw [collapseWs_cons2_ss u h1 h2, ih b]
        simp [h1, h2]
      | false =>
        rw [collapseWs_cons2_sn u h1 h2]
        simp [h1]
    | false =>
      rw [collapseWs_cons2_n u h1]
      simp [h1]

theorem collapseWs_chain : ∀ (s : List Char), List.Chain' SpaceSep (collapseWs s) := by
  intro s
  induction s with
  | nil => simp [collapseWs]
  | cons a t ih =>
    cases t with
    | nil =>
      rw [collapseWs_single]
      cases h : isPySpace a <;> simp
    | cons b u =>
      cases h1 : isPySpace a with
      | true =>
        cases h2 : isPySpace b with
        | true => rw [collapseWs_cons2_ss u h1 h2]; exact ih
        | false =>
          rw [collapseWs_cons2_sn u h1 h2]
          rw [List.chain'_cons']
          refine ⟨?_, ih⟩
          intro y hy
          rw [collapseWs_head u b] at hy
          simp only [Option.mem_def, Option.some.injEq] at hy
          subst hy
          intro hby
          obtain ⟨-, hb⟩ := hby
          rw [h2] at hb
          simp at hb
          rw [hb] at h2
          exact absurd h2 (by decide)
      | false =>
        rw [collapseWs_cons2_n u h1]
        rw [List.chain'_cons']
        refine ⟨?_, ih⟩
        intro y hy
        intro hby
        obtain ⟨hasp, -⟩ := hby
        rw [hasp] at h1
        exact absurd h1 (by decide)

theorem collapseWs_noop :
    ∀ (s : List Char), (∀ c ∈ s, isPySpace c = true → c = ' ') →
      List.Chain' SpaceSep s → collapseWs s = s := by
  intro s
  induction s with
  | nil => intro _ _; rfl
  | cons a t ih =>
    cases t with
    | nil =>
      intro hsp _
      rw [collapseWs_single]
      cases h : isPySpace a
      · simp
      · rw [if_pos rfl, hsp a (by simp) h]
    | cons b u =>
      intro hsp hch
      cases h1 : isPySpace a with
      | true =>
        cases h2 : isPySpace b with
        | true =>
          exfalso
          have ha := hsp a (by simp) h1
          have hb := hsp b (by simp) h2
          exact (List.chain'_cons.mp hch).1 ⟨ha, hb⟩
        | false =>
          rw [collapseWs_cons2_sn u h1 h2]
          rw [ih (fun c hc h => hsp c (List.mem_cons_of_mem a hc) h) (List.chain'_cons.mp hch).2]
          rw [hsp a (by simp) h1]
      | false =>
        rw [collapseWs_cons2_n u h1]
        rw [ih (fun c hc h => hsp c (List.mem_cons_of_mem a hc) h) (List.chain'_cons.mp hch).2]

theorem findClose_mem {cs rest : List Char} (h : findClose cs = some rest) :
    ∀ c ∈ rest, c ∈ cs := by
  induction cs generalizing rest with
  | nil => simp [findClose] at h
  | cons a t ih =>
    by_cases ha : a = ')'
    · subst ha
      simp [findClose] at h
      subst h
      exact fun c hc => List.mem_cons_of_mem _ hc
    · have hb : (a == ')') = false := by simpa using ha
      by_cases hn : a = '\n'
      · subst hn
        simp [findClose] at h
      · have hb2 : (a == '\n') = false := by simpa using hn
        simp only [findClose, hb, if_false, hb2] at h
        exact fun c hc => List.mem_cons_of_mem _ (ih h c hc)

theorem removeParensFuel_cons_of_ne {n : Nat} {a : Char} {t : List Char}
    (ha : (a == '(') = false) :
    removeParensFuel (n + 1) (a :: t) = a :: removeParensFuel n t := by
  simp [removeParensFuel, ha]

theorem removeParensFuel_cons_paren_some {n : Nat} {t rest : List Char}
    (hfc : findClose t = some rest) :
    removeParensFuel (n + 1) ('(' :: t) = removeParensFuel n rest := by
  simp [removeParensFuel, hfc]

theorem removeParensFuel_cons_paren_none {n : Nat} {t : List Char}
    (hfc : findClose t = none) :
    removeParensFuel (n + 1) ('(' :: t) = '(' :: removeParensFuel n t := by
  simp [removeParensFuel, hfc]

theorem removeParensFuel_mem :
    ∀ (fuel : Nat) (s : List Char), ∀ c ∈ removeParensFuel fuel s, c ∈ s := by
  intro fuel
  induction fuel with
  | zero => intro s c hc; exact hc
  | succ n ih =>
    intro s c hc
    cases s with
    | nil => simp [removeParensFuel] at hc
    | cons a t =>
      by_cases ha : a = '('
      · subst ha
        cases hfc : findClose t with
        | some rest =>
          rw [removeParensFuel_cons_paren_some hfc] at hc
          exact List.mem_cons_of_mem _ (findClose_mem hfc c (ih rest c hc))
        | none =>
          rw [removeParensFuel_cons_paren_none hfc] at hc
          rcases List.mem_cons.mp hc with rfl | hc
          · simp
          · exact List.mem_cons_of_mem _ (ih t c hc)
      · have hb : (a == '(') = false := by simpa using ha
        rw [removeParensFuel_cons_of_ne hb] at hc
        rcases List.mem_cons.mp hc with rfl | hc
        · simp
        · exact List.mem_cons_of_mem _ (ih t c hc)

theorem removeParensFuel_noop :
    ∀ (fuel : Nat) (s : List Char), '(' ∉ s → removeParensFuel fuel s = s := by
  intro fuel
  induction fuel with
  | zero => intro s _; rfl
  | succ n ih =>
    intro s hs
    cases s with
    | nil => rfl
    | cons a t =>
      have ha : a ≠ '(' := fun h => hs (h ▸ List.mem_cons_self a t)
      have hb : (a == '(') = false := by simpa using ha
      rw [removeParensFuel_cons_of_ne hb]
      rw [ih t (fun h => hs (List.mem_cons_of_mem a h))]

theorem removeParens_noop {s : List Char} (hs : '(' ∉ s) : removeParens s = s :=
  removeParensFuel_noop s.length s hs

theorem replaceAmp_noop {s : List Char} (hs : '&' ∉ s) : replaceAmp s = s := by
  induction s with
  | nil => rfl
  | cons a t ih =>
    have ha : a ≠ '&' := fun h => hs (h ▸ List.mem_cons_self a t)
    have hb : (a == '&') = false := by simpa using ha
    simp only [replaceAmp, List.flatMap_cons, hb, if_false]
    have ht := ih (fun h => hs (List.mem_cons_of_mem a h))
    simp only [replaceAmp] at ht
    rw [ht]
    rfl

theorem replaceAmp_lowered {s : List Char} (hs : Lowered s) : Lowered (replaceAmp s) := by
  intro c hc
  simp only [replaceAmp, List.mem_flatMap] at hc
  obtain ⟨a, ha, hmem⟩ := hc
  by_cases h : a = '&'
  · subst h
    simp at hmem
    rcases hmem with rfl | rfl | rfl <;> decide
  · have hb : (a == '&') = false := by simpa using h
    rw [if_neg (by simp [hb])] at hmem
    simp at hmem
    subst hmem
    exact hs _ ha

theorem punctMap_lowered {s : List Char} (hs : Lowered s) : Lowered (punctMap s) := by
  intro c hc
  simp only [punctMap, List.mem_map] at hc
  obtain ⟨a, ha, hmem⟩ := hc
  by_cases h : (isWordChar a || isPySpace a) = true
  · rw [if_pos h] at hmem
    subst hmem
    exact hs a ha
  · rw [if_neg h] at hmem
    subst hmem
    decide

theorem lowered_of_subset {s t : List Char} (hsub : ∀ c ∈ t, c ∈ s) (hs : Lowered s) :
    Lowered t := fun c hc => hs c (hsub c hc)

theorem pyLower_lowered (s : List Char) : Lowered (pyLower s) := by
  intro c hc
  simp only [pyLower, List.mem_map] at hc
  obtain ⟨a, -, rfl⟩ := hc
  exact toLower_idem a

theorem normalize_title_eq (s : String) (h : s ≠ "") :
    normalize_title s = String.mk (stripArticles (preNorm s)) := by
  simp only [normalize_title, preNorm, if_neg h]

theorem punctMap_mem {Y : List Char} :
    ∀ c ∈ punctMap Y, c = ' ' ∨ (isWordChar c || isPySpace c) = true := by
  intro c hc
  simp only [punctMap, List.mem_map] at hc
  obtain ⟨a, _, hmem⟩ := hc
  by_cases h : (isWordChar a || isPySpace a) = true
  · rw [if_pos h] at hmem
    subst hmem
    exact Or.inr h
  · rw [if_neg h] at hmem
    exact Or.inl hmem.symm

theorem collapseWs_lowered {X : List Char} (hs : Lowered X) : Lowered (collapseWs X) := by
  intro c hc
  rcases collapseWs_mem X c hc with rfl | ⟨hm, -⟩
  · decide
  · exact hs c hm

theorem goodChar_intro {c : Char} (h1 : isWordChar c = true ∨ c = ' ')
    (h2 : c.toLower = c) : goodChar c = true := by
  rcases h1 with h1 | rfl
  · simp [goodChar, h1, h2]
  · simp [goodChar]

theorem goodChar_word_or_space {c : Char} (h : goodChar c = true) :
    isWordChar c = true ∨ c = ' ' := by
  simp only [goodChar, Bool.and_eq_true, Bool.or_eq_true, beq_iff_eq] at h
  exact h.1

theorem goodChar_toLower {c : Char} (h : goodChar c = true) : c.toLower = c := by
  simp only [goodChar, Bool.and_eq_true, Bool.or_eq_true, beq_iff_eq] at h
  exact h.2

theorem spaceSep_symm : ∀ a b : Char, SpaceSep a b → SpaceSep b a :=
  fun _ _ h hba => h ⟨hba.2, hba.1⟩

theorem lowered_preNorm (s : String) : Lowered (preNorm s) := by
  have l1 : Lowered (pyLower s.data) := pyLower_lowered s.data
  have l2 : Lowered (pyStrip (pyLower s.data)) :=
    lowered_of_subset (fun c hc => mem_pyStrip hc) l1
  have l3 : Lowered (removeParens (pyStrip (pyLower s.data))) :=
    lowered_of_subset (fun c hc => removeParensFuel_mem _ _ c hc) l2
  have l4 := replaceAmp_lowered l3
  have l5 := punctMap_lowered l4
  have l6 := collapseWs_lowered l5
  exact lowered_of_subset (fun c hc => mem_pyStrip hc) l6

theorem canon_preNorm (s : String) : Canon (preNorm s) := by
  refine ⟨?_, ?_, ?_, ?_⟩
  · intro c hc
    have hlow := lowered_preNorm s c hc
    have hc2 := mem_pyStrip hc
    rcases collapseWs_mem _ c hc2 with rfl | ⟨hm, hns⟩
    · exact goodChar_intro (Or.inr rfl) hlow
    · rcases punctMap_mem c hm with rfl | hws
      · exact goodChar_intro (Or.inr rfl) hlow
      · rcases Bool.or_eq_true _ _ |>.mp hws with hw | hspc
        · exact goodChar_intro (Or.inl hw) hlow
        · rw [hspc] at hns
          exact absurd hns (by simp)
  · exact pyStrip_chain spaceSep_symm (collapseWs_chain _)
  · intro c hc
    have := pyStrip_head _ c hc
    intro hsp
    rw [hsp] at this
    exact absurd this (by decide)
  · intro c hc
    have := pyStrip_last _ c hc
    intro hsp
    rw [hsp] at this
    exact absurd this (by decide)

theorem map_eq_self_of_forall {f : Char → Char} :
    ∀ {s : List Char}, (∀ c ∈ s, f c = c) → s.map f = s := by
  intro s
  induction s with
  | nil => intro _; rfl
  | cons a t ih =>
    intro h
    rw [List.map_cons, h a (by simp), ih (fun c hc => h c (List.mem_cons_of_mem a hc))]

theorem canon_word_not_space {c : Char} (h : goodChar c = true) (hne : c ≠ ' ') :
    isWordChar c = true := by
  rcases goodChar_word_or_space h with hw | rfl
  · exact hw
  · exact absurd rfl hne

theorem canon_noop_pipeline {t : List Char} (hc : Canon t) :
    pyStrip (collapseWs (punctMap (replaceAmp (removeParens (pyStrip (pyLower t)))))) = t := by
  have hh : ∀ c ∈ t.head?, isPySpace c = false := by
    intro c hcm
    exact isPySpace_of_wordChar
      (canon_word_not_space (hc.good c (List.mem_of_mem_head? hcm)) (hc.headOk c hcm))
  have hl : ∀ c ∈ t.getLast?, isPySpace c = false := by
    intro c hcm
    exact isPySpace_of_wordChar
      (canon_word_not_space (hc.good c (List.mem_of_mem_getLast? hcm)) (hc.lastOk c hcm))
  have h1 : pyLower t = t := map_eq_self_of_forall (fun c hcm => goodChar_toLower (hc.good c hcm))
  have h2 : pyStrip t = t := pyStrip_noop hh hl
  have h3 : removeParens t = t := by
    refine removeParens_noop (fun hmem => ?_)
    have := hc.good _ hmem
    exact absurd this (by decide)
  have h4 : replaceAmp t = t := by
    refine replaceAmp_noop (fun hmem => ?_)
    have := hc.good _ hmem
    exact absurd this (by decide)
  have h5 : punctMap t = t := by
    refine map_eq_self_of_forall (fun c hcm => ?_)
    have hg := hc.good c hcm
    rcases goodChar_word_or_space hg with hw | rfl
    · simp [hw]
    · simp [isPySpace]
  have h6 : collapseWs t = t := by
    refine collapseWs_noop t (fun c hcm hsp => ?_) hc.chain
    rcases goodChar_word_or_space (hc.good c hcm) with hw | rfl
    · rw [isPySpace_of_wordChar hw] at hsp
      exact absurd hsp (by simp)
    · rfl
  rw [h1, h2, h3, h4, h5, h6, h2]

theorem stripArticle_noop {art t : List Char} (h : art.isPrefixOf t = false) :
    stripArticle art t = t := by
  simp [stripArticle, h]

theorem stripArticles_noop {t : List Char}
    (h1 : "the ".data.isPrefixOf t = false)
    (h2 : "a ".data.isPrefixOf t = false)
    (h3 : "an ".data.isPrefixOf t = false) : stripArticles t = t := by
  unfold stripArticles
  rw [stripArticle_noop h1, stripArticle_noop h2, stripArticle_noop h3]

theorem canon_stripArticle {art t : List Char} (hlast : art.getLast? = some ' ')
    (hc : Canon t) : Canon (stripArticle art t) := by
  unfold stripArticle
  cases hp : art.isPrefixOf t with
  | false => simpa using hc
  | true =>
    rw [if_pos rfl]
    obtain ⟨rest, rfl⟩ : art <+: t := List.isPrefixOf_iff_prefix.mp hp
    rw [List.drop_left]
    have hsplit := List.chain'_append.mp hc.chain
    refine ⟨?_, hsplit.2.1, ?_, ?_⟩
    · intro c hcm
      exact hc.good c (List.mem_append_right art hcm)
    · intro c hcm
      have hb := hsplit.2.2 ' ' (by rw [hlast]; rfl) c hcm
      intro hceq
      exact hb ⟨rfl, hceq⟩
    · intro c hcm
      refine hc.lastOk c ?_
      rw [List.getLast?_append]
      cases hx : rest.getLast? with
      | none =>
        have : rest = [] := List.getLast?_eq_none_iff.mp hx
        subst this
        simp at hcm
      | some d =>
        rw [hx] at hcm
        simp only [Option.mem_def, Option.some.injEq] at hcm
        subst hcm
        rfl

theorem canon_stripArticles {t : List Char} (hc : Canon t) : Canon (stripArticles t) := by
  unfold stripArticles
  exact canon_stripArticle (by decide)
    (canon_stripArticle (by decide) (canon_stripArticle (by decide) hc))

theorem data_normalize_title (s : String) (hs : s ≠ "") :
    (normalize_title s).data = stripArticles (preNorm s) := by
  rw [normalize_title_eq s hs]

theorem canon_normalize_title (s : String) (hs : s ≠ "") :
    Canon (normalize_title s).data := by
  rw [data_normalize_title s hs]
  exact canon_stripArticles (canon_preNorm s)

/-- `normalize_title` is the identity on any nonempty already-normalised
string not beginning with an article. -/
theorem normalize_title_fixed (t : String) (ht : t ≠ "") (hc : Canon t.data)
    (h1 : "the ".data.isPrefixOf t.data = false)
    (h2 : "a ".data.isPrefixOf t.data = false)
    (h3 : "an ".data.isPrefixOf t.data = false) :
    normalize_title t = t := by
  simp only [normalize_title, if_neg ht]
  rw [canon_noop_pipeline hc, stripArticles_noop h1 h2 h3]

/-! ## Lemmas: `extractOne` and the matching loop -/

theorem foldl_bestOf_some :
    ∀ (l : List (String × ℚ × Nat)) (b : String × ℚ × Nat),
      ∃ r, l.foldl bestOf (some b) = some r := by
  intro l
  induction l with
  | nil => intro b; exact ⟨b, rfl⟩
  | cons x t ih =>
    intro b
    simp only [List.foldl_cons]
    by_cases h : b.2.1 < x.2.1
    · rw [show bestOf (some b) x = some x from by simp [bestOf, h]]
      exact ih x
    · rw [show bestOf (some b) x = some b from by simp [bestOf, h]]
      exact ih b

theorem foldl_bestOf_spec :
    ∀ (l : List (String × ℚ × Nat)) (b r : String × ℚ × Nat),
      l.foldl bestOf (some b) = some r →
      (r = b ∨ r ∈ l) ∧ b.2.1 ≤ r.2.1 ∧ ∀ x ∈ l, x.2.1 ≤ r.2.1 := by
  intro l
  induction l with
  | nil =>
    intro b r h
    simp only [List.foldl_nil, Option.some.injEq] at h
    subst h
    exact ⟨Or.inl rfl, le_refl _, by simp⟩
  | cons x t ih =>
    intro b r h
    simp only [List.foldl_cons] at h
    by_cases hbx : b.2.1 < x.2.1
    · rw [show bestOf (some b) x = some x from by simp [bestOf, hbx]] at h
      obtain ⟨hmem, hle, hall⟩ := ih x r h
      refine ⟨?_, le_of_lt (lt_of_lt_of_le hbx hle), ?_⟩
      · rcases hmem with rfl | hm
        · exact Or.inr (by simp)
        · exact Or.inr (List.mem_cons_of_mem _ hm)
      · intro y hy
        rcases List.mem_cons.mp hy with rfl | hm
        · exact hle
        · exact hall y hm
    · rw [show bestOf (some b) x = some b from by simp [bestOf, hbx]] at h
      obtain ⟨hmem, hle, hall⟩ := ih b r h
      refine ⟨?_, hle, ?_⟩
      · rcases hmem with rfl | hm
        · exact Or.inl rfl
        · exact Or.inr (List.mem_cons_of_mem _ hm)
      · intro y hy
        rcases List.mem_cons.mp hy with rfl | hm
        · exact le_trans (not_lt.mp hbx) hle
        · exact hall y hm

theorem mem_scored_iff (scorer : String → String → ℚ) (query : String)
    (choices : List String) (p : String × ℚ × Nat) :
    p ∈ choices.enum.map (fun q => (q.2, scorer query q.2, q.1)) →
      choices[p.2.2]? = some p.1 ∧ p.2.1 = scorer query p.1 := by
  intro hp
  simp only [List.mem_map] at hp
  obtain ⟨⟨i, c⟩, hq, rfl⟩ := hp
  obtain ⟨hlen, hval⟩ := List.mem_enum hq
  refine ⟨?_, rfl⟩
  show choices[i]? = some c
  rw [List.getElem?_eq_getElem hlen, hval]

theorem scored_covers (scorer : String → String → ℚ) (query : String)
    (choices : List String) (c : String) (hc : c ∈ choices) :
    ∃ i, (c, scorer query c, i) ∈ choices.enum.map (fun q => (q.2, scorer query q.2, q.1)) := by
  rw [List.mem_iff_getElem] at hc
  obtain ⟨i, hi, he⟩ := hc
  refine ⟨i, ?_⟩
  simp only [List.mem_map]
  refine ⟨(i, c), ?_, rfl⟩
  have : choices.enum[i]? = some (i, c) := by
    rw [List.getElem?_enum, List.getElem?_eq_getElem hi, he]
    rfl
  exact List.getElem?_mem this

theorem extractOne_spec (scorer : String → String → ℚ) (query : String)
    (choices : List String) (hne : choices ≠ [])
    (hpos : ∀ c ∈ choices, 0 ≤ scorer query c) :
    ∃ c s i, extractOne scorer query choices = some (c, s, i) ∧
      choices[i]? = some c ∧ s = scorer query c ∧
      ∀ c2 ∈ choices, scorer query c2 ≤ s := by
  have hsne : choices.enum.map (fun q => (q.2, scorer query q.2, q.1)) ≠ [] := by
    intro hx
    apply hne
    have := congrArg List.length hx
    simp at this
    exact this
  obtain ⟨x, rest, hx⟩ := List.exists_cons_of_ne_nil hsne
  have hfold : ∃ r, (choices.enum.map (fun q => (q.2, scorer query q.2, q.1))).foldl bestOf none
      = some r := by
    rw [hx, List.foldl_cons]
    exact foldl_bestOf_some rest x
  obtain ⟨r, hr⟩ := hfold
  have hspec : (r = x ∨ r ∈ rest) ∧ x.2.1 ≤ r.2.1 ∧ ∀ y ∈ rest, y.2.1 ≤ r.2.1 := by
    apply foldl_bestOf_spec rest x r
    rw [hx, List.foldl_cons] at hr
    simpa [bestOf] using hr
  have hrmem : r ∈ choices.enum.map (fun q => (q.2, scorer query q.2, q.1)) := by
    rw [hx]
    rcases hspec.1 with rfl | hm
    · simp
    · exact List.mem_cons_of_mem _ hm
  obtain ⟨hget, hscore⟩ := mem_scored_iff scorer query choices r hrmem
  have hcmem : r.1 ∈ choices := List.getElem?_mem hget
  have hub : ∀ c2 ∈ choices, scorer query c2 ≤ r.2.1 := by
    intro c2 hc2
    obtain ⟨i2, hmem2⟩ := scored_covers scorer query choices c2 hc2
    rw [hx] at hmem2
    rcases List.mem_cons.mp hmem2 with he | hm
    · have hx21 : scorer query c2 = x.2.1 := by rw [← he]
      rw [hx21]
      exact hspec.2.1
    · simpa using hspec.2.2 _ hm
  have hpos2 : 0 ≤ r.2.1 := by
    rw [hscore]
    exact hpos r.1 hcmem
  refine ⟨r.1, r.2.1, r.2.2, ?_, hget, hscore, hub⟩
  simp only [extractOne, hr, if_pos hpos2]

theorem yearBlock_nil (year : Option Int) : yearBlock year [] = [] := by
  cases year with
  | none => rfl
  | some y => by_cases h : y = 0 <;> simp [yearBlock, h]

theorem matchOne_found (scorer : String → String → ℚ) (acceptT reviewT : ℚ)
    (title : String) (year : Option Int) (tn : List Row) (c : String) (s : ℚ) (i : Nat)
    (htitle : title ≠ "") (hne : (yearBlock year tn).isEmpty = false)
    (he : extractOne scorer title
      ((yearBlock year tn).map (fun r => asStr (getCol r "title_normalized"))) = some (c, s, i)) :
    matchOne scorer acceptT reviewT title year tn =
      { tn_row := (yearBlock year tn)[i]?
        tn_match_score := s
        tn_match_status := classifyScore acceptT reviewT s } := by
  simp only [matchOne, if_neg htitle, hne, he]
  rw [if_neg Bool.false_ne_true]

theorem matchOne_spec (scorer : String → String → ℚ) (hpos : ∀ a b, 0 ≤ scorer a b)
    (acceptT reviewT : ℚ) (title : String) (year : Option Int) (tn : List Row)
    (htitle : title ≠ "") (hcand : yearBlock year tn ≠ []) :
    ((matchOne scorer acceptT reviewT title year tn).tn_match_status =
      classifyScore acceptT reviewT (matchOne scorer acceptT reviewT title year tn).tn_match_score)
    ∧ ∀ r ∈ yearBlock year tn,
        scorer title (asStr (getCol r "title_normalized")) ≤
          (matchOne scorer acceptT reviewT title year tn).tn_match_score := by
  have hch : (yearBlock year tn).map (fun r => asStr (getCol r "title_normalized")) ≠ [] := by
    simpa using hcand
  obtain ⟨c, s, i, he, hget, hs, hub⟩ :=
    extractOne_spec scorer title _ hch (fun c _ => hpos title c)
  have hne : (yearBlock year tn).isEmpty = false := List.isEmpty_eq_false.mpr hcand
  rw [matchOne_found scorer acceptT reviewT title year tn c s i htitle hne he]
  constructor
  · rfl
  · intro r hr
    exact hub _ (List.mem_map_of_mem _ hr)

/-! ## Lemmas: row and column operations -/

theorem lookup_eq_none_of_not_mem {r : Row} {k : String} (h : k ∉ colNames r) :
    r.lookup k = none := by
  induction r with
  | nil => rfl
  | cons p t ih =>
    obtain ⟨a, b⟩ := p
    have h1 : ¬(k = a ∨ k ∈ colNames t) := by simpa [colNames] using h
    have hb : (k == a) = false := by simpa using (fun he => h1 (Or.inl he))
    simp only [List.lookup, hb]
    exact ih (fun hm => h1 (Or.inr hm))

theorem overwritePair_hit {k : String} {v : Val} {a : String} {b : Val} (h : a = k) :
    overwritePair k v (a, b) = (k, v) := by
  simp [overwritePair, h]

theorem overwritePair_miss {k : String} {v : Val} {a : String} {b : Val} (h : ¬a = k) :
    overwritePair k v (a, b) = (a, b) := by
  simp [overwritePair, h]

theorem lookup_overwrite (t : Row) (k : String) (v : Val) (hm : k ∈ colNames t) :
    (t.map (overwritePair k v)).lookup k = some v := by
  induction t with
  | nil => simp [colNames] at hm
  | cons p t ih =>
    obtain ⟨a, b⟩ := p
    rw [List.map_cons]
    by_cases hpa : a = k
    · rw [overwritePair_hit hpa]
      simp [List.lookup]
    · rw [overwritePair_miss hpa]
      have hka : (k == a) = false := by simpa using fun he => hpa he.symm
      have hmt : k ∈ colNames t := by
        rcases (by simpa [colNames] using hm : k = a ∨ k ∈ colNames t) with he | hmt
        · exact absurd he.symm hpa
        · exact hmt
      simp only [List.lookup, hka]
      exact ih hmt

theorem lookup_overwrite_ne (t : Row) (k k2 : String) (v : Val) (h : k2 ≠ k) :
    (t.map (overwritePair k v)).lookup k2 = t.lookup k2 := by
  induction t with
  | nil => rfl
  | cons p t ih =>
    obtain ⟨a, b⟩ := p
    rw [List.map_cons]
    by_cases hpa : a = k
    · rw [overwritePair_hit hpa]
      have hbk : (k2 == k) = false := by simpa using h
      have hba : (k2 == a) = false := by rw [hpa]; exact hbk
      simp only [List.lookup, hbk, hba]
      exact ih
    · rw [overwritePair_miss hpa]
      cases hx : (k2 == a) with
      | true => simp only [List.lookup, hx]
      | false =>
        simp only [List.lookup, hx]
        exact ih

theorem lookup_setCol_self (r : Row) (k : String) (v : Val) :
    (setCol r k v).lookup k = some v := by
  unfold setCol
  by_cases hm : k ∈ colNames r
  · rw [if_pos hm]
    exact lookup_overwrite r k v hm
  · rw [if_neg hm, List.lookup_append, lookup_eq_none_of_not_mem hm]
    simp [List.lookup]

theorem lookup_setCol_ne (r : Row) (k k2 : String) (v : Val) (h : k2 ≠ k) :
    (setCol r k v).lookup k2 = r.lookup k2 := by
  unfold setCol
  by_cases hm : k ∈ colNames r
  · rw [if_pos hm]
    exact lookup_overwrite_ne r k k2 v h
  · rw [if_neg hm, List.lookup_append]
    have h2 : List.lookup k2 [(k, v)] = none := by
      have hb : (k2 == k) = false := by simpa using h
      simp [List.lookup, hb]
    rw [h2]
    cases r.lookup k2 <;> rfl

theorem lookup_setCols_not_mem :
    ∀ (pairs : List (String × Val)) (r : Row) (k : String),
      k ∉ pairs.map Prod.fst → (setCols r pairs).lookup k = r.lookup k := by
  intro pairs
  induction pairs with
  | nil => intro r k _; rfl
  | cons p t ih =>
    intro r k h
    obtain ⟨pk, pv⟩ := p
    have hk : k ≠ pk := fun he => h (by simp [he])
    have ht : k ∉ t.map Prod.fst := fun hm => h (by simp [hm])
    simp only [setCols]
    rw [ih (setCol r pk pv) k ht, lookup_setCol_ne r pk k pv hk]

theorem getCol_setCol_self (r : Row) (k : String) (v : Val) :
    getCol (setCol r k v) k = v := by
  unfold getCol
  rw [lookup_setCol_self]
  rfl

theorem getCol_setCol_ne (r : Row) (k k2 : String) (v : Val) (h : k2 ≠ k) :
    getCol (setCol r k v) k2 = getCol r k2 := by
  unfold getCol
  rw [lookup_setCol_ne r k k2 v h]

theorem lookup_reindex {cs : List String} {r : Row} {c : String} (h : c ∈ cs) :
    (cs.map (fun c2 => (c2, getCol r c2))).lookup c = some (getCol r c) := by
  induction cs with
  | nil => simp at h
  | cons d t ih =>
    by_cases hcd : c = d
    · subst hcd
      simp [List.lookup]
    · have hb : (c == d) = false := by simpa using hcd
      simp only [List.map_cons, List.lookup, hb]
      refine ih ?_
      rcases List.mem_cons.mp h with h1 | h1
      · exact absurd h1 hcd
      · exact h1

theorem getCol_reindex {cs : List String} {r : Row} {c : String} (h : c ∈ cs) :
    getCol (reindexRow cs r) c = getCol r c := by
  show ((cs.map (fun c2 => (c2, getCol r c2))).lookup c).getD Val.vnone = getCol r c
  rw [lookup_reindex h]
  rfl

theorem rowsMapM_ok {f : Row → Except (List String) Row} :
    ∀ (l out : List Row), rowsMapM f l = .ok out →
      out.length = l.length ∧
        ∀ (i : Nat) (r : Row), l[i]? = some r → ∃ r2, out[i]? = some r2 ∧ f r = .ok r2 := by
  intro l
  induction l with
  | nil =>
    intro out h
    simp only [rowsMapM] at h
    have := Except.ok.inj h
    subst this
    exact ⟨rfl, by intro i r hir; simp at hir⟩
  | cons x t ih =>
    intro out h
    simp only [rowsMapM] at h
    cases hf : f x with
    | error e => rw [hf] at h; simp at h
    | ok r2 =>
      rw [hf] at h
      cases hm : rowsMapM f t with
      | error e => rw [hm] at h; simp at h
      | ok rs2 =>
        rw [hm] at h
        have := Except.ok.inj h
        subst this
        obtain ⟨hlen, hall⟩ := ih rs2 hm
        refine ⟨by simp [hlen], ?_⟩
        intro i r hir
        cases i with
        | zero =>
          simp only [List.getElem?_cons_zero, Option.some.injEq] at hir
          subst hir
          exact ⟨r2, by simp, hf⟩
        | succ n =>
          simp only [List.getElem?_cons_succ] at hir ⊢
          exact hall n r hir

/-! ## Lemmas: left joins and the merge stages -/

theorem fillnaCol_cols (dst src : String) (f : Frame) :
    (fillnaCol dst src f).cols = f.cols := rfl

theorem fillnaCol_length (dst src : String) (f : Frame) :
    (fillnaCol dst src f).rows.length = f.rows.length := by
  simp [fillnaCol]

theorem selectLenient_length (cs : List String) (f : Frame) :
    (selectLenient cs f).rows.length = f.rows.length := by
  simp [selectLenient]

theorem addParsedDate_length (strptime : String → String → Option PyDate) (f : Frame) :
    (addParsedDate strptime f).rows.length = f.rows.length := by
  simp [addParsedDate]

theorem joinOne_of_unique (key sl sr : String) (L R : Frame) (lr : Row)
    (hu : (joinMatches key R lr).length ≤ 1) :
    joinOne key sl sr L R lr = [joinOneRow key sl sr L R lr] := by
  cases hm : joinMatches key R lr with
  | nil => simp [joinOne, joinOneRow, hm]
  | cons rr ms =>
    cases ms with
    | nil => simp [joinOne, joinOneRow, hm]
    | cons rr2 ms2 =>
      exfalso
      rw [hm] at hu
      simp at hu

theorem flatMap_singleton_eq_map {f : Row → List Row} {g : Row → Row} :
    ∀ (l : List Row), (∀ x ∈ l, f x = [g x]) → l.flatMap f = l.map g := by
  intro l
  induction l with
  | nil => intro _; rfl
  | cons x t ih =>
    intro h
    rw [List.flatMap_cons, h x (by simp), ih (fun y hy => h y (List.mem_cons_of_mem x hy))]
    rfl

theorem pdLeftJoin_rows_of_unique (key sl sr : String) (L R : Frame)
    (hu : ∀ lr ∈ L.rows, (joinMatches key R lr).length ≤ 1) :
    (pdLeftJoin key sl sr L R).rows = L.rows.map (joinOneRow key sl sr L R) := by
  show L.rows.flatMap (joinOne key sl sr L R) = _
  exact flatMap_singleton_eq_map L.rows
    (fun lr hlr => joinOne_of_unique key sl sr L R lr (hu lr hlr))

theorem pdLeftJoin_length_of_unique (key sl sr : String) (L R : Frame)
    (hu : ∀ lr ∈ L.rows, (joinMatches key R lr).length ≤ 1) :
    (pdLeftJoin key sl sr L R).rows.length = L.rows.length := by
  rw [pdLeftJoin_rows_of_unique key sl sr L R hu, List.length_map]

/-- Null join keys match each other, as in pandas `merge`: a
null-keyed left row joined against two null-keyed right rows produces
two output rows (and such a row has two `joinMatches`, so it falls
outside the at-most-one-match hypotheses of the row-count lemmas). -/
theorem pdLeftJoin_null_keys_match :
    valKeyEq Val.vnone Val.vnone = true
    ∧ (pdLeftJoin "bom_release_id" "_x" "_y"
        (Frame.mk ["bom_release_id", "a"] [[("bom_release_id", Val.vnone), ("a", Val.vint 1)]])
        (Frame.mk ["bom_release_id", "b"]
          [[("bom_release_id", Val.vnone), ("b", Val.vint 2)],
           [("bom_release_id", Val.vnone), ("b", Val.vint 3)]])).rows.length = 2 := by
  decide

theorem requireCols_ok {cs : List String} {f g : Frame} (h : requireCols cs f = .ok g) :
    g.cols = cs ∧ g.rows = f.rows.map (reindexRow cs) := by
  simp only [requireCols] at h
  by_cases hx : (cs.filter (fun c => !(f.cols.contains c))).isEmpty = true
  · rw [if_pos hx] at h
    have := Except.ok.inj h
    subst this
    exact ⟨rfl, rfl⟩
  · rw [if_neg hx] at h
    simp at h

theorem requireCols_error {cs : List String} {f : Frame}
    (h : cs.filter (fun c => !(f.cols.contains c)) ≠ []) :
    requireCols cs f = .error (cs.filter (fun c => !(f.cols.contains c))) := by
  have hx : (cs.filter (fun c => !(f.cols.contains c))).isEmpty = false :=
    List.isEmpty_eq_false.mpr h
  have hcond : ¬((cs.filter (fun c => !(f.cols.contains c))).isEmpty = true) := by
    rw [hx]
    exact Bool.false_ne_true
  simp only [requireCols]
  rw [if_neg hcond]

theorem merge_bom_ok {strptime : String → String → Option PyDate} {idx det out : Frame}
    (h : merge_bom strptime idx det = .ok out) :
    ∃ L R, requireCols BOM_INDEX_COLS idx = .ok L ∧ requireCols BOM_DETAIL_COLS det = .ok R ∧
      out = selectLenient BOM_KEEP_COLS (addParsedDate strptime
        { cols := addColName
            (fillnaCol "domestic_gross" "total_gross"
              (pdLeftJoin "bom_release_id" "_index" "_detail" L R)).cols "distributor"
          rows := (fillnaCol "domestic_gross" "total_gross"
              (pdLeftJoin "bom_release_id" "_index" "_detail" L R)).rows.map
            (fun r => setCol r "distributor"
              (fillVal (getCol r "distributor_detail") (getCol r "distributor_index"))) }) := by
  unfold merge_bom at h
  cases hL : requireCols BOM_INDEX_COLS idx with
  | error e => rw [hL] at h; simp [Except.bind] at h
  | ok L =>
    rw [hL] at h
    cases hR : requireCols BOM_DETAIL_COLS det with
    | error e => rw [hR] at h; simp [Except.bind] at h
    | ok R =>
      rw [hR] at h
      simp only [Except.bind] at h
      exact ⟨L, R, rfl, rfl, (Except.ok.inj h).symm⟩

theorem merge_rt_ok {bom rt out : Frame} (h : merge_rt bom rt = .ok out) :
    out.rows = (pdLeftJoin "bom_release_id" "_x" "_y" bom (selectLenient RT_COLS rt)).rows ∨
    out.rows = (fillnaCol "mpaa_rating" "rt_rating"
      (pdLeftJoin "bom_release_id" "_x" "_y" bom (selectLenient RT_COLS rt))).rows := by
  by_cases h1 : "bom_release_id" ∈ bom.cols
  case neg => simp [merge_rt, h1] at h
  by_cases h2 : "bom_release_id" ∈ (selectLenient RT_COLS rt).cols
  case neg => simp [merge_rt, h1, h2] at h
  by_cases h3 : "rt_rating" ∈ (pdLeftJoin "bom_release_id" "_x" "_y" bom (selectLenient RT_COLS rt)).cols
  · by_cases h4 : "mpaa_rating" ∈ (pdLeftJoin "bom_release_id" "_x" "_y" bom (selectLenient RT_COLS rt)).cols
    · by_cases h5 : "tomatometer" ∈ (fillnaCol "mpaa_rating" "rt_rating"
          (pdLeftJoin "bom_release_id" "_x" "_y" bom (selectLenient RT_COLS rt))).cols
      · by_cases h6 : "audience_score" ∈ (fillnaCol "mpaa_rating" "rt_rating"
            (pdLeftJoin "bom_release_id" "_x" "_y" bom (selectLenient RT_COLS rt))).cols
        · right
          simp [merge_rt, h1, h2, h3, h4, h5, h6, Except.bind] at h
          rw [← h]
        · simp [merge_rt, h1, h2, h3, h4, h5, h6, Except.bind] at h
      · simp [merge_rt, h1, h2, h3, h4, h5, Except.bind] at h
    · simp [merge_rt, h1, h2, h3, h4, Except.bind] at h
  · by_cases h5 : "tomatometer" ∈ (pdLeftJoin "bom_release_id" "_x" "_y" bom (selectLenient RT_COLS rt)).cols
    · by_cases h6 : "audience_score" ∈ (pdLeftJoin "bom_release_id" "_x" "_y" bom (selectLenient RT_COLS rt)).cols
      · left
        simp [merge_rt, h1, h2, h3, h5, h6, Except.bind] at h
        rw [← h]
      · simp [merge_rt, h1, h2, h3, h5, h6, Except.bind] at h
    · simp [merge_rt, h1, h2, h3, h5, Except.bind] at h

theorem merge_rt_missing_key (bom rt : Frame) (h1 : "bom_release_id" ∉ bom.cols) :
    merge_rt bom rt = .error ["bom_release_id"] := by
  simp [merge_rt, h1]

theorem fuzzy_missing_title (scorer : String → String → ℚ) (acceptT reviewT : ℚ)
    (bom tn : Frame) (h : "title" ∉ bom.cols) :
    fuzzy_match_budgets scorer acceptT reviewT bom tn = .error ["title"] := by
  simp [fuzzy_match_budgets, h]

theorem fuzzy_missing_release_year (scorer : String → String → ℚ) (acceptT reviewT : ℚ)
    (bom tn : Frame) (h1 : "title" ∈ bom.cols) (h2 : "release_date_parsed" ∈ bom.cols)
    (h3 : "title_normalized" ∈ tn.cols) (h4 : "release_year" ∉ tn.cols) :
    fuzzy_match_budgets scorer acceptT reviewT bom tn = .error ["release_year"] := by
  simp [fuzzy_match_budgets, prepTn, h1, h2, h3, h4, Except.bind]

theorem fuzzy_ok {scorer : String → String → ℚ} {acceptT reviewT : ℚ} {bom tn out : Frame}
    (h : fuzzy_match_budgets scorer acceptT reviewT bom tn = .ok out) :
    out.cols = FUZZY_ADDED_COLS.foldl addColName bom.cols ∧
    ∃ tn2, prepTn tn = .ok tn2 ∧
      rowsMapM (fuzzyRow scorer acceptT reviewT tn2) bom.rows = .ok out.rows := by
  unfold fuzzy_match_budgets at h
  by_cases h1 : "title" ∈ bom.cols
  case neg => rw [if_neg h1] at h; simp at h
  by_cases h2 : "release_date_parsed" ∈ bom.cols
  case neg => rw [if_pos h1, if_neg h2] at h; simp at h
  rw [if_pos h1, if_pos h2] at h
  cases hp : prepTn tn with
  | error e => rw [hp] at h; simp [Except.bind] at h
  | ok tn2 =>
    rw [hp] at h
    simp only [Except.bind] at h
    cases hm : rowsMapM (fuzzyRow scorer acceptT reviewT tn2) bom.rows with
    | error e => rw [hm] at h; simp at h
    | ok rows =>
      rw [hm] at h
      have hh := Except.ok.inj h
      have hcols : out.cols = FUZZY_ADDED_COLS.foldl addColName bom.cols := by rw [← hh]
      have hrows : out.rows = rows := by rw [← hh]
      refine ⟨hcols, tn2, rfl, ?_⟩
      rw [hrows, hm]

theorem fuzzyRow_preserves {scorer : String → String → ℚ} {acceptT reviewT : ℚ}
    {tn : Frame} {r r2 : Row}
    (h : fuzzyRow scorer acceptT reviewT tn r = .ok r2) {k : String}
    (hk : k ∉ FUZZY_ADDED_COLS) : r2.lookup k = r.lookup k := by
  have hk2 : ¬(k = "title_norm" ∨ k = "release_year" ∨ k = "tn_title_matched" ∨
      k = "tn_match_score" ∨ k = "production_budget" ∨ k = "tn_domestic_gross" ∨
      k = "tn_match_status") := by
    simpa [FUZZY_ADDED_COLS] using hk
  push_neg at hk2
  obtain ⟨k1, k2, k3, k4, k5, k6, k7⟩ := hk2
  simp only [fuzzyRow] at h
  cases hm : (matchOne scorer acceptT reviewT (normalize_title (asStr (getCol r "title")))
      (bomReleaseYear r) tn.rows).tn_row with
  | none =>
    rw [hm] at h
    simp only at h
    have hh := Except.ok.inj h
    subst hh
    rw [lookup_setCols_not_mem _ _ _ (by simp [k3, k4, k5, k6, k7])]
    rw [lookup_setCol_ne _ _ _ _ k2, lookup_setCol_ne _ _ _ _ k1]
  | some tnr =>
    rw [hm] at h
    simp only at h
    by_cases ht : "title" ∈ tn.cols
    · rw [if_pos ht] at h
      have hh := Except.ok.inj h
      subst hh
      rw [lookup_setCols_not_mem _ _ _ (by simp [k3, k4, k5, k6, k7])]
      rw [lookup_setCol_ne _ _ _ _ k2, lookup_setCol_ne _ _ _ _ k1]
    · rw [if_neg ht] at h
      simp at h

/-! ## Lemmas: tracing rows through `merge_bom` -/

theorem joinMatches_reindex {key : String} {det R : Frame} {csL csR : List String} {lr0 : Row}
    (hkeyL : key ∈ csL) (hkeyR : key ∈ csR)
    (hRr : R.rows = det.rows.map (reindexRow csR)) :
    joinMatches key R (reindexRow csL lr0) =
      (det.rows.filter (fun rr => valKeyEq (getCol lr0 key) (getCol rr key))).map
        (reindexRow csR) := by
  unfold joinMatches
  rw [hRr, List.filter_map]
  congr 1
  apply List.filter_congr
  intro rr0 _
  simp only [Function.comp_apply]
  rw [getCol_reindex hkeyL, getCol_reindex hkeyR]

theorem bom_unique_transfer {idx det L R : Frame}
    (hLr : L.rows = idx.rows.map (reindexRow BOM_INDEX_COLS))
    (hRr : R.rows = det.rows.map (reindexRow BOM_DETAIL_COLS))
    (hu : ∀ lr ∈ idx.rows, (det.rows.filter (fun rr =>
      valKeyEq (getCol lr "bom_release_id") (getCol rr "bom_release_id"))).length ≤ 1) :
    ∀ lr ∈ L.rows, (joinMatches "bom_release_id" R lr).length ≤ 1 := by
  intro lr hlr
  rw [hLr] at hlr
  obtain ⟨lr0, hlr0, rfl⟩ := List.mem_map.mp hlr
  rw [joinMatches_reindex (by decide) (by decide) hRr, List.length_map]
  exact hu lr0 hlr0

theorem merge_bom_length {strptime : String → String → Option PyDate} {idx det out : Frame}
    (h : merge_bom strptime idx det = .ok out)
    (hu : ∀ lr ∈ idx.rows, (det.rows.filter (fun rr =>
      valKeyEq (getCol lr "bom_release_id") (getCol rr "bom_release_id"))).length ≤ 1) :
    out.rows.length = idx.rows.length := by
  obtain ⟨L, R, hL, hR, hout⟩ := merge_bom_ok h
  obtain ⟨hLc, hLr⟩ := requireCols_ok hL
  obtain ⟨hRc, hRr⟩ := requireCols_ok hR
  have hu2 := bom_unique_transfer hLr hRr hu
  rw [hout, selectLenient_length, addParsedDate_length]
  show ((fillnaCol "domestic_gross" "total_gross"
      (pdLeftJoin "bom_release_id" "_index" "_detail" L R)).rows.map _).length = _
  rw [List.length_map, fillnaCol_length,
    pdLeftJoin_length_of_unique "bom_release_id" "_index" "_detail" L R hu2,
    hLr, List.length_map]

theorem merge_rt_length {bom rt out : Frame} (h : merge_rt bom rt = .ok out)
    (hu : ∀ lr ∈ bom.rows,
      (joinMatches "bom_release_id" (selectLenient RT_COLS rt) lr).length ≤ 1) :
    out.rows.length = bom.rows.length := by
  rcases merge_rt_ok h with hrows | hrows <;> rw [hrows]
  · exact pdLeftJoin_length_of_unique _ _ _ _ _ hu
  · rw [fillnaCol_length]
    exact pdLeftJoin_length_of_unique _ _ _ _ _ hu

theorem lookup_map_pair (kf : String → String) (vf : String → Val) :
    ∀ (cs : List String) (k : String),
      List.lookup k (cs.map (fun c => (kf c, vf c))) = (cs.find? (fun c => k == kf c)).map vf := by
  intro cs
  induction cs with
  | nil => intro k; rfl
  | cons d t ih =>
    intro k
    simp only [List.map_cons, List.lookup, List.find?]
    cases hx : (k == kf d) with
    | true => rfl
    | false => exact ih k

theorem renRow_reindex (ov : List String) (sfx : String) (cs : List String) (r : Row) :
    renRow ov sfx (reindexRow cs r) = cs.map (fun c => (renCol ov sfx c, getCol r c)) := by
  unfold renRow reindexRow
  rw [List.map_map]
  rfl

theorem detailPart_eq (ov : List String) (key sfx : String) (cs : List String) (r : Row) :
    ((reindexRow cs r).filter (fun p => p.1 != key)).map (fun p => (renCol ov sfx p.1, p.2))
      = (cs.filter (fun c => c != key)).map (fun c => (renCol ov sfx c, getCol r c)) := by
  unfold reindexRow
  rw [List.filter_map, List.map_map]
  rfl

theorem getCol_append (A B : Row) (k : String) :
    getCol (A ++ B) k = ((A.lookup k).or (B.lookup k)).getD Val.vnone := by
  unfold getCol
  rw [List.lookup_append]

theorem bomJoinRow_values {det L R : Frame} (hLc : L.cols = BOM_INDEX_COLS)
    (hRc : R.cols = BOM_DETAIL_COLS)
    (hRr : R.rows = det.rows.map (reindexRow BOM_DETAIL_COLS)) (lr0 : Row) :
    getCol (joinOneRow "bom_release_id" "_index" "_detail" L R
        (reindexRow BOM_INDEX_COLS lr0)) "domestic_gross"
      = detailVal det lr0 "domestic_gross"
    ∧ getCol (joinOneRow "bom_release_id" "_index" "_detail" L R
        (reindexRow BOM_INDEX_COLS lr0)) "total_gross" = getCol lr0 "total_gross"
    ∧ getCol (joinOneRow "bom_release_id" "_index" "_detail" L R
        (reindexRow BOM_INDEX_COLS lr0)) "distributor_detail"
      = detailVal det lr0 "distributor"
    ∧ getCol (joinOneRow "bom_release_id" "_index" "_detail" L R
        (reindexRow BOM_INDEX_COLS lr0)) "distributor_index" = getCol lr0 "distributor" := by
  have hov : joinOverlap "bom_release_id" L R = ["distributor"] := by
    unfold joinOverlap
    rw [hLc, hRc]
    rfl
  have hjm : joinMatches "bom_release_id" R (reindexRow BOM_INDEX_COLS lr0) =
      (det.rows.filter (fun rr =>
        valKeyEq (getCol lr0 "bom_release_id") (getCol rr "bom_release_id"))).map
        (reindexRow BOM_DETAIL_COLS) :=
    joinMatches_reindex (by decide) (by decide) hRr
  have hright : joinRightCols "bom_release_id" R =
      ["opening_wknd_gross", "opening_wknd_theaters", "widest_release", "domestic_gross",
       "mpaa_rating", "genres", "release_date", "distributor"] := by
    unfold joinRightCols
    rw [hRc]
    rfl
  have hL1 : renRow ["distributor"] "_index" (reindexRow BOM_INDEX_COLS lr0)
      = BOM_INDEX_COLS.map (fun c => (renCol ["distributor"] "_index" c, getCol lr0 c)) :=
    renRow_reindex _ _ _ _
  simp only [joinOneRow]
  rw [hov, hjm, hright, List.head?_map]
  unfold detailVal detailMatch
  cases hd : (det.rows.filter (fun rr =>
      valKeyEq (getCol lr0 "bom_release_id") (getCol rr "bom_release_id"))).head? with
  | none =>
    simp only [Option.map_none']
    refine ⟨?_, ?_, ?_, ?_⟩
    · rw [getCol_append, hL1, lookup_map_pair, lookup_map_pair]
      rw [show BOM_INDEX_COLS.find?
          (fun c => "domestic_gross" == renCol ["distributor"] "_index" c) = none from by decide]
      rw [show (["opening_wknd_gross", "opening_wknd_theaters", "widest_release",
          "domestic_gross", "mpaa_rating", "genres", "release_date", "distributor"].find?
          (fun c => "domestic_gross" == renCol ["distributor"] "_detail" c))
          = some "domestic_gross" from by decide]
      rfl
    · rw [getCol_append, hL1, lookup_map_pair]
      rw [show BOM_INDEX_COLS.find?
          (fun c => "total_gross" == renCol ["distributor"] "_index" c)
          = some "total_gross" from by decide]
      rfl
    · rw [getCol_append, hL1, lookup_map_pair, lookup_map_pair]
      rw [show BOM_INDEX_COLS.find?
          (fun c => "distributor_detail" == renCol ["distributor"] "_index" c) = none from by decide]
      rw [show (["opening_wknd_gross", "opening_wknd_theaters", "widest_release",
          "domestic_gross", "mpaa_rating", "genres", "release_date", "distributor"].find?
          (fun c => "distributor_detail" == renCol ["distributor"] "_detail" c))
          = some "distributor" from by decide]
      rfl
    · rw [getCol_append, hL1, lookup_map_pair]
      rw [show BOM_INDEX_COLS.find?
          (fun c => "distributor_index" == renCol ["distributor"] "_index" c)
          = some "distributor" from by decide]
      rfl
  | some rr0 =>
    simp only [Option.map_some']
    rw [detailPart_eq]
    refine ⟨?_, ?_, ?_, ?_⟩
    · rw [getCol_append, hL1, lookup_map_pair, lookup_map_pair]
      rw [show BOM_INDEX_COLS.find?
          (fun c => "domestic_gross" == renCol ["distributor"] "_index" c) = none from by decide]
      rw [show ((BOM_DETAIL_COLS.filter (fun c => c != "bom_release_id")).find?
          (fun c => "domestic_gross" == renCol ["distributor"] "_detail" c))
          = some "domestic_gross" from by decide]
      rfl
    · rw [getCol_append, hL1, lookup_map_pair]
      rw [show BOM_INDEX_COLS.find?
          (fun c => "total_gross" == renCol ["distributor"] "_index" c)
          = some "total_gross" from by decide]
      rfl
    · rw [getCol_append, hL1, lookup_map_pair, lookup_map_pair]
      rw [show BOM_INDEX_COLS.find?
          (fun c => "distributor_detail" == renCol ["distributor"] "_index" c) = none from by decide]
      rw [show ((BOM_DETAIL_COLS.filter (fun c => c != "bom_release_id")).find?
          (fun c => "distributor_detail" == renCol ["distributor"] "_detail" c))
          = some "distributor" from by decide]
      rfl
    · rw [getCol_append, hL1, lookup_map_pair]
      rw [show BOM_INDEX_COLS.find?
          (fun c => "distributor_index" == renCol ["distributor"] "_index" c)
          = some "distributor" from by decide]
      rfl

theorem merge_bom_row_values {strptime : String → String → Option PyDate} {idx det out : Frame}
    (h : merge_bom strptime idx det = .ok out)
    (hu : ∀ lr ∈ idx.rows, (det.rows.filter (fun rr =>
      valKeyEq (getCol lr "bom_release_id") (getCol rr "bom_release_id"))).length ≤ 1)
    (i : Nat) (lr : Row) (hl : idx.rows[i]? = some lr) :
    ∃ r2, out.rows[i]? = some r2 ∧
      getCol r2 "domestic_gross"
        = fillVal (detailVal det lr "domestic_gross") (getCol lr "total_gross")
      ∧ getCol r2 "distributor"
        = fillVal (detailVal det lr "distributor") (getCol lr "distributor") := by
  obtain ⟨L, R, hL, hR, hout⟩ := merge_bom_ok h
  obtain ⟨hLc, hLr⟩ := requireCols_ok hL
  obtain ⟨hRc, hRr⟩ := requireCols_ok hR
  have hu2 := bom_unique_transfer hLr hRr hu
  have hov : joinOverlap "bom_release_id" L R = ["distributor"] := by
    unfold joinOverlap
    rw [hLc, hRc]
    rfl
  have hJc : (pdLeftJoin "bom_release_id" "_index" "_detail" L R).cols
      = ["bom_release_id", "title", "total_gross", "max_theaters", "release_date_raw",
         "bom_year", "distributor_index", "release_url",
         "opening_wknd_gross", "opening_wknd_theaters", "widest_release", "domestic_gross",
         "mpaa_rating", "genres", "release_date", "distributor_detail"] := by
    show L.cols.map (renCol (joinOverlap "bom_release_id" L R) "_index")
        ++ (joinRightCols "bom_release_id" R).map
            (renCol (joinOverlap "bom_release_id" L R) "_detail") = _
    unfold joinRightCols
    rw [hov, hLc, hRc]
    rfl
  have e5 : (pdLeftJoin "bom_release_id" "_index" "_detail" L R).rows[i]?
      = some (joinOneRow "bom_release_id" "_index" "_detail" L R
          (reindexRow BOM_INDEX_COLS lr)) := by
    rw [pdLeftJoin_rows_of_unique _ _ _ _ _ hu2, hLr, List.map_map, List.getElem?_map, hl]
    rfl
  obtain ⟨dgv, tgv, ddv, div2⟩ := bomJoinRow_values hLc hRc hRr lr
  obtain ⟨row1, hrow1⟩ : ∃ x, joinOneRow "bom_release_id" "_index" "_detail" L R
      (reindexRow BOM_INDEX_COLS lr) = x := ⟨_, rfl⟩
  rw [hrow1] at e5 dgv tgv ddv div2
  obtain ⟨row2, hrow2⟩ : ∃ x, setCol row1 "domestic_gross"
      (fillVal (getCol row1 "domestic_gross") (getCol row1 "total_gross")) = x := ⟨_, rfl⟩
  obtain ⟨row3, hrow3⟩ : ∃ x, setCol row2 "distributor"
      (fillVal (getCol row2 "distributor_detail") (getCol row2 "distributor_index")) = x :=
    ⟨_, rfl⟩
  obtain ⟨row4, hrow4⟩ : ∃ x, setCol row3 "release_date_parsed"
      (optVal Val.vdate (resolve_release_date strptime row3)) = x := ⟨_, rfl⟩
  have e4 : (fillnaCol "domestic_gross" "total_gross"
      (pdLeftJoin "bom_release_id" "_index" "_detail" L R)).rows[i]? = some row2 := by
    show ((pdLeftJoin "bom_release_id" "_index" "_detail" L R).rows.map
      (fun r => setCol r "domestic_gross"
        (fillVal (getCol r "domestic_gross") (getCol r "total_gross"))))[i]? = some row2
    rw [List.getElem?_map, e5]
    show some (setCol row1 "domestic_gross"
      (fillVal (getCol row1 "domestic_gross") (getCol row1 "total_gross"))) = some row2
    rw [hrow2]
  have e3 : (Frame.mk
      (addColName (fillnaCol "domestic_gross" "total_gross"
        (pdLeftJoin "bom_release_id" "_index" "_detail" L R)).cols "distributor")
      ((fillnaCol "domestic_gross" "total_gross"
          (pdLeftJoin "bom_release_id" "_index" "_detail" L R)).rows.map
        (fun r => setCol r "distributor"
          (fillVal (getCol r "distributor_detail") (getCol r "distributor_index"))))).rows[i]? = some row3 := by
    show ((fillnaCol "domestic_gross" "total_gross"
        (pdLeftJoin "bom_release_id" "_index" "_detail" L R)).rows.map
      (fun r => setCol r "distributor"
        (fillVal (getCol r "distributor_detail") (getCol r "distributor_index"))))[i]?
      = some row3
    rw [List.getElem?_map, e4]
    show some (setCol row2 "distributor"
      (fillVal (getCol row2 "distributor_detail") (getCol row2 "distributor_index")))
      = some row3
    rw [hrow3]
  have e2 : (addParsedDate strptime (Frame.mk
      (addColName (fillnaCol "domestic_gross" "total_gross"
        (pdLeftJoin "bom_release_id" "_index" "_detail" L R)).cols "distributor")
      ((fillnaCol "domestic_gross" "total_gross"
          (pdLeftJoin "bom_release_id" "_index" "_detail" L R)).rows.map
        (fun r => setCol r "distributor"
          (fillVal (getCol r "distributor_detail") (getCol r "distributor_index")))))).rows[i]?
      = some row4 := by
    show ((Frame.mk
      (addColName (fillnaCol "domestic_gross" "total_gross"
        (pdLeftJoin "bom_release_id" "_index" "_detail" L R)).cols "distributor")
      ((fillnaCol "domestic_gross" "total_gross"
          (pdLeftJoin "bom_release_id" "_index" "_detail" L R)).rows.map
        (fun r => setCol r "distributor"
          (fillVal (getCol r "distributor_detail") (getCol r "distributor_index"))))).rows.map (fun r => setCol r "release_date_parsed"
        (optVal Val.vdate (resolve_release_date strptime r))))[i]? = some row4
    rw [List.getElem?_map, e3]
    show some (setCol row3 "release_date_parsed"
      (optVal Val.vdate (resolve_release_date strptime row3))) = some row4
    rw [hrow4]
  have hkeptF : BOM_KEEP_COLS.filter (fun c =>
      (addColName (addColName (pdLeftJoin "bom_release_id" "_index" "_detail" L R).cols
        "distributor") "release_date_parsed").contains c) = BOM_KEEP_COLS := by
    rw [hJc]
    rfl
  have e1 : out.rows[i]? = some (reindexRow BOM_KEEP_COLS row4) := by
    rw [hout]
    show ((addParsedDate strptime (Frame.mk
      (addColName (fillnaCol "domestic_gross" "total_gross"
        (pdLeftJoin "bom_release_id" "_index" "_detail" L R)).cols "distributor")
      ((fillnaCol "domestic_gross" "total_gross"
          (pdLeftJoin "bom_release_id" "_index" "_detail" L R)).rows.map
        (fun r => setCol r "distributor"
          (fillVal (getCol r "distributor_detail") (getCol r "distributor_index")))))).rows.map
      (reindexRow (BOM_KEEP_COLS.filter (fun c =>
        (addColName (addColName (pdLeftJoin "bom_release_id" "_index" "_detail" L R).cols
          "distributor") "release_date_parsed").contains c))))[i]? = _
    rw [List.getElem?_map, e2, hkeptF]
    rfl
  refine ⟨reindexRow BOM_KEEP_COLS row4, e1, ?_, ?_⟩
  · rw [getCol_reindex (by decide)]
    rw [← hrow4, getCol_setCol_ne _ _ _ _ (by decide), ← hrow3,
      getCol_setCol_ne _ _ _ _ (by decide), ← hrow2, getCol_setCol_self, dgv, tgv]
  · rw [getCol_reindex (by decide)]
    rw [← hrow4, getCol_setCol_ne _ _ _ _ (by decide), ← hrow3, getCol_setCol_self,
      ← hrow2, getCol_setCol_ne _ _ _ _ (by decide), getCol_setCol_ne _ _ _ _ (by decide),
      ddv, div2]

/-! ## The claims -/

/-- C1: for every target title, target year and candidate pool, the
matching-loop body classifies the best candidate score against the two
configured thresholds (`matched` at or above the accept threshold,
`review` between the review and accept thresholds, `unmatched` below),
and an empty target title or an empty candidate pool short-circuits,
for any scorer whatsoever, to `unmatchedResult` — no candidate, score
0, status `unmatched` — without consulting the similarity measure.
The score hypothesis reflects that rapidfuzz scorers return values in
`[0, 100]`. -/
theorem C1_fuzzy_matcher_classifies (scorer : String → String → ℚ)
    (hpos : ∀ a b, 0 ≤ scorer a b) (acceptT reviewT : ℚ) (title : String)
    (year : Option Int) (tn : List Row) :
    (title = "" → matchOne scorer acceptT reviewT title year tn = unmatchedResult)
    ∧ (tn = [] → matchOne scorer acceptT reviewT title year tn = unmatchedResult)
    ∧ (title ≠ "" → yearBlock year tn ≠ [] →
        ((matchOne scorer acceptT reviewT title year tn).tn_match_status =
          (if acceptT ≤ (matchOne scorer acceptT reviewT title year tn).tn_match_score
            then "matched"
            else if reviewT ≤ (matchOne scorer acceptT reviewT title year tn).tn_match_score
              then "review" else "unmatched"))
        ∧ ∀ r ∈ yearBlock year tn,
            scorer title (asStr (getCol r "title_normalized")) ≤
              (matchOne scorer acceptT reviewT title year tn).tn_match_score) := by
  refine ⟨?_, ?_, ?_⟩
  · intro h
    simp [matchOne, h]
  · intro h
    subst h
    by_cases h2 : title = ""
    · simp [matchOne, h2]
    · simp [matchOne, h2, yearBlock_nil]
  · intro ht hc
    obtain ⟨hstat, hub⟩ := matchOne_spec scorer hpos acceptT reviewT title year tn ht hc
    refine ⟨?_, hub⟩
    rw [hstat]
    rfl

/-- Witness for C1 at concrete inputs: a constant scorer of 90 on a
nonempty pool classifies as `matched` with thresholds 85/70 (via the
classification clause), evaluated concretely. -/
theorem C1_witness :
    (matchOne (fun _ _ => (90 : ℚ)) FUZZY_MATCH_ACCEPT_THRESHOLD
      FUZZY_MATCH_REVIEW_THRESHOLD "batman" none exTnNoBudget.rows).tn_match_status
      = "matched" := by
  have h := (C1_fuzzy_matcher_classifies (fun _ _ => (90 : ℚ))
    (fun _ _ => (by decide : (0 : ℚ) ≤ 90))
    FUZZY_MATCH_ACCEPT_THRESHOLD FUZZY_MATCH_REVIEW_THRESHOLD "batman" none
    exTnNoBudget.rows).2.2 (by decide) (by decide)
  rw [h.1]
  decide

/-- C2 (code behavior at the failing input): the treatment indicator
`(df[score] >= RD_THRESHOLD).astype("Int64")` evaluates a null score to
the integer 0, not to null — the float64 comparison turns `NaN` into
`False` before the nullable cast — contradicting the claim that null
propagates.  The boundary cases 60 and 59 behave as claimed. -/
theorem C2_treatment_indicator_code_behavior :
    is_fresh RD_THRESHOLD (some 60) = some 1
    ∧ is_fresh RD_THRESHOLD (some 59) = some 0
    ∧ is_fresh RD_THRESHOLD none = some 0
    ∧ is_fresh RD_THRESHOLD none ≠ none := by
  decide

/-- C3 counterexample: `normalize_title` is not idempotent — the
article loop strips only one leading `a ` from `"A A Film"`, so the
normalised form `"a film"` normalises further to `"film"`. -/
theorem C3_normalize_not_idempotent_counterexample :
    normalize_title (normalize_title "A A Film") ≠ normalize_title "A A Film" := by
  decide

/-- C3 amended: `normalize_title` is idempotent on every string whose
normalised form does not begin with a leading article (`the `, `a `,
`an `); only the article-stripping step can make a second pass differ. -/
theorem C3_normalize_idempotent_unless_leading_article (s : String)
    (h1 : "the ".data.isPrefixOf (normalize_title s).data = false)
    (h2 : "a ".data.isPrefixOf (normalize_title s).data = false)
    (h3 : "an ".data.isPrefixOf (normalize_title s).data = false) :
    normalize_title (normalize_title s) = normalize_title s := by
  by_cases hs : s = ""
  · subst hs
    rfl
  · by_cases ht : normalize_title s = ""
    · rw [ht]
      rfl
    · exact normalize_title_fixed _ ht (canon_normalize_title s hs) h1 h2 h3

/-- Witness for C3 at a concrete input whose normalisation starts with
no article. -/
theorem C3_witness :
    ("the ".data.isPrefixOf (normalize_title "Spider-Man: No Way Home").data = false)
    ∧ ("a ".data.isPrefixOf (normalize_title "Spider-Man: No Way Home").data = false)
    ∧ ("an ".data.isPrefixOf (normalize_title "Spider-Man: No Way Home").data = false)
    ∧ normalize_title (normalize_title "Spider-Man: No Way Home")
        = normalize_title "Spider-Man: No Way Home" :=
  ⟨by decide, by decide, by decide,
    C3_normalize_idempotent_unless_leading_article "Spider-Man: No Way Home"
      (by decide) (by decide) (by decide)⟩

/-- C4 counterexample: the claimed equation
`normalize("A A Film") == normalize("a film")` fails on the code:
the left side normalises to `"a film"` but the right side to `"film"`. -/
theorem C4_single_article_counterexample :
    normalize_title "A A Film" = "a film"
    ∧ normalize_title "a film" = "film"
    ∧ normalize_title "A A Film" ≠ normalize_title "a film" := by
  decide

/-- C4 amended: one leading article is stripped without recursion —
`normalize("The Batman") = normalize("Batman")`, and a single leading
`a ` is removed from `"A A Film"`, leaving the literal `"a film"`
(not the doubly-stripped `normalize("a film")`). -/
theorem C4_article_stripping_amended :
    normalize_title "The Batman" = normalize_title "Batman"
    ∧ normalize_title "A A Film" = "a film" := by
  decide

/-- C5 counterexample: a left join does not preserve the left row
count when right-side keys repeat — one left row joined against two
review rows with the same identifier yields two output rows. -/
theorem C5_left_join_row_count_counterexample :
    (merge_rt exBomKey exRtDup).map (fun f => f.rows.length) = .ok 2
    ∧ exBomKey.rows.length = 1
    ∧ (merge_rt exBomKey exRtDup).map (fun f => f.rows.length)
        ≠ .ok exBomKey.rows.length := by
  decide

/-- C5 amended: both exact-key merge stages preserve the left table
row count provided every left row has at most one key match on the
right (in general a left row contributes one output row per match,
or one null-extended row when unmatched). -/
theorem C5_left_join_row_count_amended :
    (∀ (bom rt out : Frame), merge_rt bom rt = .ok out →
      (∀ lr ∈ bom.rows,
        (joinMatches "bom_release_id" (selectLenient RT_COLS rt) lr).length ≤ 1) →
      out.rows.length = bom.rows.length)
    ∧ (∀ (strptime : String → String → Option PyDate) (idx det out : Frame),
        merge_bom strptime idx det = .ok out →
        (∀ lr ∈ idx.rows, (det.rows.filter (fun rr =>
          valKeyEq (getCol lr "bom_release_id") (getCol rr "bom_release_id"))).length ≤ 1) →
        out.rows.length = idx.rows.length) :=
  ⟨fun _ _ _ h hu => merge_rt_length h hu,
   fun _ _ _ _ h hu => merge_bom_length h hu⟩

/-- Witness for C5 on the fixtures: both merges succeed with unique
keys and preserve the single left row. -/
theorem C5_witness :
    exMergedRt.rows.length = exBomKey.rows.length
    ∧ exMergedBom.rows.length = exIdx.rows.length :=
  ⟨C5_left_join_row_count_amended.1 exBomKey exRtOne exMergedRt (by decide) (by decide),
   C5_left_join_row_count_amended.2 exStrptime exIdx exDet exMergedBom (by decide) (by decide)⟩

/-- C6: in the BOM merge, for every row the domestic-gross and
distributor fields independently prefer the detail-page value and fall
back to the listing-index value (`total_gross` resp. `distributor`)
when the detail value is null; stated positionally for every left row
under unique right keys. -/
theorem C6_bom_field_precedence {strptime : String → String → Option PyDate}
    {idx det out : Frame}
    (h : merge_bom strptime idx det = .ok out)
    (hu : ∀ lr ∈ idx.rows, (det.rows.filter (fun rr =>
      valKeyEq (getCol lr "bom_release_id") (getCol rr "bom_release_id"))).length ≤ 1)
    (i : Nat) (lr : Row) (hl : idx.rows[i]? = some lr) :
    ∃ r2, out.rows[i]? = some r2 ∧
      getCol r2 "domestic_gross"
        = fillVal (detailVal det lr "domestic_gross") (getCol lr "total_gross")
      ∧ getCol r2 "distributor"
        = fillVal (detailVal det lr "distributor") (getCol lr "distributor") :=
  merge_bom_row_values h hu i lr hl

/-- Witness for C6 on the fixtures: the detail row has null domestic
gross and distributor, so both fields fall back to the listing values. -/
theorem C6_witness :
    ∃ r2, exMergedBom.rows[0]? = some r2 ∧
      getCol r2 "domestic_gross"
        = fillVal (detailVal exDet exIdxRow "domestic_gross") (getCol exIdxRow "total_gross")
      ∧ getCol r2 "distributor"
        = fillVal (detailVal exDet exIdxRow "distributor") (getCol exIdxRow "distributor") :=
  @C6_bom_field_precedence exStrptime exIdx exDet exMergedBom
    (by decide) (by decide) 0 exIdxRow (by decide)

/-- C7: `parse_money` maps suffix notation to the claimed exact
integers and placeholder text (dashes, empty, n/a, non-string input)
to null. -/
theorem C7_parse_money_values :
    parse_money (some "$1.2B") = some 1200000000
    ∧ parse_money (some "$400M") = some 400000000
    ∧ parse_money (some "-") = none
    ∧ parse_money (some "") = none
    ∧ parse_money (some "n/a") = none
    ∧ parse_money none = none := by
  decide

/-- C8: the derived log-budget is null whenever the production budget
is null or non-positive and never a floored value, while the other
log-transformed variables floor at 1 before the (external) natural
log.  Null inputs to the other log variables propagate as null. -/
theorem C8_log_transforms (ln : ℚ → ℚ) (rdT : ℚ) (inCutoff : PyDate) (r : FilteredRow) :
    (r.production_budget = none → (construct_rdd_row ln rdT inCutoff r).log_budget = none)
    ∧ (∀ v, r.production_budget = some v → v ≤ 0 →
        (construct_rdd_row ln rdT inCutoff r).log_budget = none)
    ∧ (∀ v, r.production_budget = some v → 0 < v →
        (construct_rdd_row ln rdT inCutoff r).log_budget = some (ln (max v 1)))
    ∧ (∀ v, r.opening_wknd_gross = some v →
        (construct_rdd_row ln rdT inCutoff r).log_opening_gross = some (ln (max v 1)))
    ∧ (∀ v, r.domestic_gross = some v →
        (construct_rdd_row ln rdT inCutoff r).log_total_gross = some (ln (max v 1)))
    ∧ (∀ v, r.opening_wknd_theaters = some v →
        (construct_rdd_row ln rdT inCutoff r).log_theaters = some (ln (max v 1))) := by
  refine ⟨?_, ?_, ?_, ?_, ?_, ?_⟩
  · intro h
    simp [construct_rdd_row, log_budget_np, h]
  · intro v hv hle
    simp only [construct_rdd_row, log_budget_np, hv]
    rw [if_neg (not_lt.mpr hle)]
  · intro v hv hpos
    simp only [construct_rdd_row, log_budget_np, hv]
    rw [if_pos hpos]
  · intro v hv
    simp [construct_rdd_row, log_clip1, hv]
  · intro v hv
    simp [construct_rdd_row, log_clip1, hv]
  · intro v hv
    simp [construct_rdd_row, log_clip1, hv]

/-- Witness for C8: with the identity standing in for the external
log, a null budget yields a null log-budget on the fixture row. -/
theorem C8_witness :
    (construct_rdd_row (fun q => q) RD_THRESHOLD ⟨2025, 12, 13⟩ exFilteredRow).log_budget
      = none :=
  (C8_log_transforms (fun q => q) RD_THRESHOLD ⟨2025, 12, 13⟩ exFilteredRow).1 rfl

/-- C9 counterexample: a missing `production_budget` column in the
budget table is read through the lenient `tn_row.get`, so the pipeline
completes with status `matched` and a silently null budget instead of
stopping. -/
theorem C9_missing_column_counterexample :
    (fuzzy_match_budgets (fun _ _ => (100 : ℚ)) FUZZY_MATCH_ACCEPT_THRESHOLD
        FUZZY_MATCH_REVIEW_THRESHOLD exBomSmall exTnNoBudget).map
      (fun f => f.rows.map (fun r => (getCol r "tn_match_status", getCol r "production_budget")))
      = .ok [(Val.vstr "matched", Val.vnone)] := by
  decide

/-- C9 amended: missing input columns read through raising pandas
accesses are fatal and report exactly the missing names — the
mandatory selections of `merge_bom`, the join key of `merge_rt`, and
the `title` / `release_year` accesses of the budget stage — but the
budget-table value columns are exempt (see the counterexample). -/
theorem C9_missing_input_amended :
    (∀ (strptime : String → String → Option PyDate) (idx det : Frame),
      BOM_INDEX_COLS.filter (fun c => !(idx.cols.contains c)) ≠ [] →
      merge_bom strptime idx det
        = .error (BOM_INDEX_COLS.filter (fun c => !(idx.cols.contains c))))
    ∧ (∀ (bom rt : Frame), "bom_release_id" ∉ bom.cols →
        merge_rt bom rt = .error ["bom_release_id"])
    ∧ (∀ (scorer : String → String → ℚ) (acceptT reviewT : ℚ) (bom tn : Frame),
        "title" ∉ bom.cols →
        fuzzy_match_budgets scorer acceptT reviewT bom tn = .error ["title"])
    ∧ (∀ (scorer : String → String → ℚ) (acceptT reviewT : ℚ) (bom tn : Frame),
        "title" ∈ bom.cols → "release_date_parsed" ∈ bom.cols →
        "title_normalized" ∈ tn.cols → "release_year" ∉ tn.cols →
        fuzzy_match_budgets scorer acceptT reviewT bom tn = .error ["release_year"]) := by
  refine ⟨?_, merge_rt_missing_key, fuzzy_missing_title, fuzzy_missing_release_year⟩
  intro strptime idx det hmiss
  unfold merge_bom
  rw [requireCols_error hmiss]
  rfl

/-- Witness for C9: a listing table missing its non-key required
columns makes `merge_bom` stop with exactly those columns reported. -/
theorem C9_witness :
    merge_bom exStrptime exIdxMissing exDet
      = .error (BOM_INDEX_COLS.filter (fun c => !(exIdxMissing.cols.contains c))) :=
  C9_missing_input_amended.1 exStrptime exIdxMissing exDet (by decide)

/-- C10 counterexample: the budget-match stage adds the helper columns
`title_norm` and `release_year` in addition to the five budget-match
columns, so its output columns are not the input plus exactly those
five. -/
theorem C10_budget_columns_counterexample :
    (fuzzy_match_budgets (fun _ _ => (0 : ℚ)) FUZZY_MATCH_ACCEPT_THRESHOLD
        FUZZY_MATCH_REVIEW_THRESHOLD exBomSmall exTnEmpty).map Frame.cols
      = .ok ["bom_release_id", "title", "release_date_parsed", "title_norm", "release_year",
             "tn_title_matched", "tn_match_score", "production_budget", "tn_domestic_gross",
             "tn_match_status"]
    ∧ ["bom_release_id", "title", "release_date_parsed", "title_norm", "release_year",
       "tn_title_matched", "tn_match_score", "production_budget", "tn_domestic_gross",
       "tn_match_status"]
      ≠ exBomSmall.cols ++ ["tn_title_matched", "tn_match_score", "production_budget",
         "tn_domestic_gross", "tn_match_status"] := by
  decide

/-- C10 amended: the budget-match stage preserves its input rows in
order and every pre-existing column outside the seven assigned names,
and adds exactly the five budget-match columns plus the helper columns
`title_norm` and `release_year` (a pre-existing column with one of the
seven names is overwritten). -/
theorem C10_budget_match_frame_amended (scorer : String → String → ℚ)
    (acceptT reviewT : ℚ) (bom tn out : Frame)
    (h : fuzzy_match_budgets scorer acceptT reviewT bom tn = .ok out) :
    out.rows.length = bom.rows.length
    ∧ out.cols = FUZZY_ADDED_COLS.foldl addColName bom.cols
    ∧ ∀ (i : Nat) (r : Row), bom.rows[i]? = some r →
        ∃ r2, out.rows[i]? = some r2 ∧
          ∀ k, k ∉ FUZZY_ADDED_COLS → r2.lookup k = r.lookup k := by
  obtain ⟨hcols, tn2, hp, hm⟩ := fuzzy_ok h
  obtain ⟨hlen, hall⟩ := rowsMapM_ok _ _ hm
  refine ⟨hlen, hcols, ?_⟩
  intro i r hr
  obtain ⟨r2, h1, h2⟩ := hall i r hr
  exact ⟨r2, h1, fun k hk => fuzzyRow_preserves h2 hk⟩

/-- Witness for C10 on the fixtures: the stage succeeds and preserves
the single input row and the column layout. -/
theorem C10_witness :
    exFuzzyOut.rows.length = exBomSmall.rows.length
    ∧ exFuzzyOut.cols = FUZZY_ADDED_COLS.foldl addColName exBomSmall.cols := by
  have h := C10_budget_match_frame_amended (fun _ _ => (0 : ℚ)) FUZZY_MATCH_ACCEPT_THRESHOLD
    FUZZY_MATCH_REVIEW_THRESHOLD exBomSmall exTnEmpty exFuzzyOut (by decide)
  exact ⟨h.1, h.2.1⟩

end RTMerge
